import Mathlib

/-!
# MapSector (src/mapsector.cpp): a shallow embedding

A `MapSector` owns one vertical column of `MapBlock`s.  The embedding keeps the
C++ object graph explicit:

* a `Heap` holds the `MapBlock` objects, addressed by `Ptr`;
* `m_blocks` (a `std::unordered_map<s16, std::unique_ptr<MapBlock>>`) is an
  association list from the vertical coordinate to a possibly-null owning
  pointer;
* `m_block_cache` is a raw, possibly-null pointer.

Every member function becomes a function from the state before the call to the
result of the call together with the state at the point where the call ended
(normally, by a thrown exception, or at a failed `assert`).  An `assert` is
taken as checked: when its condition is false the call ends there with
`Result.assertion_failed`.
-/

namespace Luanti

/-! ## Basic types -/

/-- The C++ type `s16`.  The sector code only stores, compares and hashes these
values, it never does arithmetic on them, so they are embedded as integers. -/
abbrev s16 := Int

/-- The C++ type `size_t`, as a natural number kept below `size_t_mod`. -/
abbrev size_t := Nat

/-- Arithmetic on `size_t` wraps modulo this value. -/
def size_t_mod : Nat := 2 ^ 64

/-- The class `core::vector2d<T>` at an integer component type
(irr/include/vector2d.h). -/
structure vector2d where
  X : Int
  Y : Int
deriving DecidableEq, Repr

/-- The type `v2s16`, which is `core::vector2d<s16>`. -/
abbrev v2s16 := vector2d

/-- The comparison `vector2d::operator==`: `X == other.X && Y == other.Y`. -/
def vector2d.eq (a other : vector2d) : Bool :=
  a.X == other.X && a.Y == other.Y

/-- The type `v3s16` (`core::vector3d<s16>`); only its three components are
used by the sector. -/
structure v3s16 where
  X : s16
  Y : s16
  Z : s16
deriving DecidableEq, Repr

/-- An address of a `MapBlock` object. -/
abbrev Ptr := Nat

/-- Modelled from the spec: the class `MapBlock` (mapblock.h is not among the
sources).  A block has a 3D integer position fixed at construction, an external
reference counter, an orphan flag, and the game definition handle it was
constructed with. -/
structure MapBlock where
  m_pos : v3s16
  m_gamedef : Nat
  m_refcount : Int
  m_orphan : Bool
deriving DecidableEq, Repr

/-- Modelled from the spec: the constructor `MapBlock(pos, gamedef)`; a new
block is not referenced and not orphaned. -/
def MapBlock.new (pos : v3s16) (gamedef : Nat) : MapBlock :=
  { m_pos := pos, m_gamedef := gamedef, m_refcount := 0, m_orphan := false }

/-- Modelled from the spec: the accessor `MapBlock::getPos`. -/
def MapBlock.getPos (b : MapBlock) : v3s16 := b.m_pos

/-- Modelled from the spec: the accessor `MapBlock::refGet`. -/
def MapBlock.refGet (b : MapBlock) : Int := b.m_refcount

/-- Modelled from the spec: the method `MapBlock::makeOrphan` sets the orphan
flag. -/
def MapBlock.makeOrphan (b : MapBlock) : MapBlock := { b with m_orphan := true }

/-- Modelled from the spec: the accessor `MapBlock::isOrphan`. -/
def MapBlock.isOrphan (b : MapBlock) : Bool := b.m_orphan

/-! ## The heap of blocks -/

/-- The heap: the cell at index `p` is the object at address `p`, or `none`
once that object has been destroyed. -/
abbrev Heap := List (Option MapBlock)

/-- Dereferencing `p`: the live object at that address, if there is one. -/
def Heap.deref (h : Heap) (p : Ptr) : Option MapBlock := h.getD p none

/-- The allocation `std::make_unique<MapBlock>(...)`: the object is placed at an
address never used before, which is returned with the new heap. -/
def Heap.make_unique (h : Heap) (b : MapBlock) : Ptr × Heap :=
  (h.length, h ++ [some b])

/-- Writing through a pointer to a live object. -/
def Heap.store (h : Heap) (p : Ptr) (b : MapBlock) : Heap := h.set p (some b)

/-- Destruction of the object at `p` (a `std::unique_ptr` going out of scope,
being reset or being overwritten). -/
def Heap.destroy (h : Heap) (p : Ptr) : Heap := h.set p none

/-- A `std::unique_ptr<MapBlock>`: null or the address of the owned object. -/
abbrev unique_ptr := Option Ptr

/-- Destruction of whatever a `std::unique_ptr` owns (nothing when null). -/
def Heap.release (h : Heap) : unique_ptr → Heap
  | none => h
  | some p => h.destroy p

/-! ## The container `m_blocks` -/

/-- The container `std::unordered_map<s16, std::unique_ptr<MapBlock>>`.  Its
iteration order is unspecified; the list order stands for it. -/
abbrev BlockMap := List (s16 × unique_ptr)

/-- The lookup `m_blocks.find(y)`: `none` stands for `end()`, otherwise the
mapped `unique_ptr` of the entry found. -/
def BlockMap.find : BlockMap → s16 → Option unique_ptr
  | [], _ => none
  | (k, v) :: rest, y => if k = y then some v else BlockMap.find rest y

/-- Overwriting the mapped value of the entry with key `y`. -/
def BlockMap.replace : BlockMap → s16 → unique_ptr → BlockMap
  | [], _, _ => []
  | (k, v) :: rest, y, u =>
    if k = y then (k, u) :: rest else (k, v) :: BlockMap.replace rest y u

/-- The call `m_blocks.erase(it)` for the iterator `it` that `find(y)` returned:
exactly that entry is removed. -/
def BlockMap.erase : BlockMap → s16 → BlockMap
  | [], _ => []
  | (k, v) :: rest, y => if k = y then rest else (k, v) :: BlockMap.erase rest y

/-- The assignment `m_blocks[y] = std::move(u)`: `operator[]` default-inserts a
null entry when the key is absent; the move assignment then destroys whatever
the entry owned before and stores `u`. -/
def BlockMap.assign (h : Heap) (m : BlockMap) (y : s16) (u : Ptr) : Heap × BlockMap :=
  match m.find y with
  | none => (h, (y, some u) :: m)
  | some old => (h.release old, m.replace y (some u))

/-! ## The sector -/

/-- The class `MapSector`.  The member declarations are in mapsector.h, which is
not among the sources; the fields are the ones mapsector.cpp uses. -/
structure MapSector where
  m_parent : Nat
  m_pos : v2s16
  m_gamedef : Nat
  m_blocks : BlockMap
  m_block_cache : Option Ptr
  m_block_cache_y : s16
deriving DecidableEq, Repr

/-- The program state the sector code acts on: the heap and the sector. -/
structure World where
  heap : Heap
  sector : MapSector
deriving DecidableEq, Repr

/-- How a call ends: it returns a value, it throws one of the two exceptions,
an `assert` fails (fatal), or it dereferences a null or dangling pointer. -/
inductive Result (α : Type) where
  | ok (v : α)
  | InvalidPositionException
  | AlreadyExistsException
  | assertion_failed
  | undefined_behaviour
deriving DecidableEq, Repr

/-- A call that ended in a way the program survives: a normal return or a
thrown (recoverable) exception. -/
def Result.recoverable {α : Type} : Result α → Bool
  | .ok _ => true
  | .InvalidPositionException => true
  | .AlreadyExistsException => true
  | .assertion_failed => false
  | .undefined_behaviour => false

/-- Modelled from the spec: the constructor `MapSector::MapSector`; the member
initialisers of `m_block_cache` and `m_block_cache_y` are in mapsector.h, the
spec says a new sector has an empty block mapping and an empty cache. -/
def MapSector.new (parent : Nat) (pos : v2s16) (gamedef : Nat) : MapSector :=
  { m_parent := parent, m_pos := pos, m_gamedef := gamedef,
    m_blocks := [], m_block_cache := none, m_block_cache_y := 0 }

/-- The direct keyed lookup of mapsector.cpp lines 46-47:
`it != m_blocks.end() ? it->second.get() : nullptr`. -/
def MapSector.lookup (s : MapSector) (y : s16) : Option Ptr :=
  match s.m_blocks.find y with
  | some u => u
  | none => none

/-- The method `MapSector::getBlockBuffered`. -/
def MapSector.getBlockBuffered (s : MapSector) (y : s16) : Option Ptr × MapSector :=
  if s.m_block_cache.isSome && decide (y = s.m_block_cache_y) then
    (s.m_block_cache, s)
  else
    let block := s.lookup y
    (block, { s with m_block_cache_y := y, m_block_cache := block })

/-- The method `MapSector::getBlockNoCreateNoEx`. -/
def MapSector.getBlockNoCreateNoEx (s : MapSector) (y : s16) : Option Ptr × MapSector :=
  s.getBlockBuffered y

/-- The method `MapSector::createBlankBlockNoInsert`.  The function
`blockpos_over_max_limit` is declared outside the sources and is a parameter. -/
def createBlankBlockNoInsert (blockpos_over_max_limit : v3s16 → Bool)
    (w : World) (y : s16) : Result Ptr × World :=
  let r := w.sector.getBlockBuffered y
  if r.1.isSome then
    (.assertion_failed, { w with sector := r.2 })
  else if blockpos_over_max_limit ⟨0, y, 0⟩ then
    (.InvalidPositionException, { w with sector := r.2 })
  else
    let blockpos_map : v3s16 := ⟨r.2.m_pos.X, y, r.2.m_pos.Y⟩
    let a := w.heap.make_unique (MapBlock.new blockpos_map r.2.m_gamedef)
    (.ok a.1, { heap := a.2, sector := r.2 })

/-- The method `MapSector::createBlankBlock`. -/
def createBlankBlock (blockpos_over_max_limit : v3s16 → Bool)
    (w : World) (y : s16) : Result Ptr × World :=
  match createBlankBlockNoInsert blockpos_over_max_limit w y with
  | (.ok block, w1) =>
    let a := BlockMap.assign w1.heap w1.sector.m_blocks y block
    (.ok block, { heap := a.1, sector := { w1.sector with m_blocks := a.2 } })
  | (.InvalidPositionException, w1) => (.InvalidPositionException, w1)
  | (.AlreadyExistsException, w1) => (.AlreadyExistsException, w1)
  | (.assertion_failed, w1) => (.assertion_failed, w1)
  | (.undefined_behaviour, w1) => (.undefined_behaviour, w1)

/-- The method `MapSector::insertBlock`.  The argument is the address held by
the `std::unique_ptr` passed in; when the exception is thrown, unwinding
destroys that parameter and with it the block. -/
def insertBlock (w : World) (block : Ptr) : Result Unit × World :=
  match w.heap.deref block with
  | none => (.undefined_behaviour, w)
  | some b =>
    let block_y := b.getPos.Y
    let r := w.sector.getBlockBuffered block_y
    if r.1.isSome then
      (.AlreadyExistsException, { heap := w.heap.destroy block, sector := r.2 })
    else
      let p2d : v2s16 := ⟨b.getPos.X, b.getPos.Z⟩
      if p2d.eq r.2.m_pos then
        let a := BlockMap.assign w.heap r.2.m_blocks block_y block
        (.ok (), { heap := a.1, sector := { r.2 with m_blocks := a.2 } })
      else
        (.assertion_failed, { w with sector := r.2 })

/-- The method `MapSector::detachBlock`.  At the second `assert` the entry found
has already been moved from, so it is null in the state at that point. -/
def detachBlock (w : World) (block : Ptr) : Result Ptr × World :=
  match w.heap.deref block with
  | none => (.undefined_behaviour, w)
  | some b =>
    let block_y := b.getPos.Y
    let s1 : MapSector := { w.sector with m_block_cache := none }
    match s1.m_blocks.find block_y with
    | none => (.assertion_failed, { w with sector := s1 })
    | some ret =>
      if ret = some block then
        (.ok block,
          { heap := w.heap.store block b.makeOrphan,
            sector := { s1 with m_blocks := s1.m_blocks.erase block_y } })
      else
        (.assertion_failed,
          { w with sector := { s1 with m_blocks := s1.m_blocks.replace block_y none } })

/-- The method `MapSector::deleteBlock`: the `unique_ptr` that `detachBlock`
returns is dropped, which destroys the block. -/
def deleteBlock (w : World) (block : Ptr) : Result Unit × World :=
  match detachBlock w block with
  | (.ok ret, w1) => (.ok (), { w1 with heap := w1.heap.destroy ret })
  | (.InvalidPositionException, w1) => (.InvalidPositionException, w1)
  | (.AlreadyExistsException, w1) => (.AlreadyExistsException, w1)
  | (.assertion_failed, w1) => (.assertion_failed, w1)
  | (.undefined_behaviour, w1) => (.undefined_behaviour, w1)

/-- The loop of `MapSector::deleteBlocks` over the entries still to visit:
`u` is incremented for each block with `refGet() > 0`, and each block is
destroyed by `reset()`.  The result is `none` when an entry cannot be
dereferenced. -/
def deleteBlocksLoop : Heap → BlockMap → size_t → Option (Heap × size_t)
  | h, [], u => some (h, u)
  | _, (_, none) :: _, _ => none
  | h, (_, some p) :: rest, u =>
    match h.deref p with
    | none => none
    | some b =>
      deleteBlocksLoop (h.destroy p) rest
        (if b.refGet > 0 then (u + 1) % size_t_mod else u)

/-- The method `MapSector::deleteBlocks`.  The argument `used_count` is the
value behind the pointer passed in (`none` for a null pointer); the result is
the value behind it after the call. -/
def deleteBlocks (w : World) (used_count : Option size_t) :
    Result (Option size_t) × World :=
  let s1 : MapSector := { w.sector with m_block_cache := none }
  match deleteBlocksLoop w.heap s1.m_blocks 0 with
  | none => (.undefined_behaviour, { w with sector := s1 })
  | some (h, u) =>
    (.ok (used_count.map (fun c => (c + u) % size_t_mod)),
      { heap := h, sector := { s1 with m_blocks := [] } })

/-- The type `MapBlockVect`, a `std::vector<MapBlock *>`. -/
abbrev MapBlockVect := List (Option Ptr)

/-- The method `MapSector::getBlocks`: the result is `dest` after the call,
with the sector after the call. -/
def MapSector.getBlocks (s : MapSector) (dest : MapBlockVect) :
    MapBlockVect × MapSector :=
  (dest ++ s.m_blocks.map (fun block => block.2), s)

/-! ## Reachable states -/

/-- The sector owns `p`: some entry of `m_blocks` holds it. -/
def MapSector.owns (s : MapSector) (p : Ptr) : Prop :=
  ∃ k, (k, some p) ∈ s.m_blocks

/-- What code outside the sector may do to the heap between two calls: it
creates, changes and destroys blocks, but a block the sector owns stays alive
and keeps its position (a `MapBlock` has no position setter, and only the owner
of a `std::unique_ptr` destroys the object); addresses are not given back. -/
def ExternalStep (s : MapSector) (h h2 : Heap) : Prop :=
  h.length ≤ h2.length ∧
  ∀ p, s.owns p → ∀ b, h.deref p = some b →
    ∃ b2, h2.deref p = some b2 ∧ b2.getPos = b.getPos

/-- The states a sector can be in: the state after construction, and every state
in which a public member function called on a reachable state ends, provided the
call returns or throws (a failed `assert` and undefined behaviour end the
program).  `insertBlock` takes a `std::unique_ptr` by value, so its caller owns
the block passed in and the sector does not. -/
inductive Reachable (blockpos_over_max_limit : v3s16 → Bool) : World → Prop where
  | construct (h : Heap) (parent : Nat) (pos : v2s16) (gamedef : Nat) :
      Reachable blockpos_over_max_limit ⟨h, MapSector.new parent pos gamedef⟩
  | step_getBlockBuffered {w : World} (y : s16) :
      Reachable blockpos_over_max_limit w →
      Reachable blockpos_over_max_limit
        { w with sector := (w.sector.getBlockBuffered y).2 }
  | step_createBlankBlockNoInsert {w : World} (y : s16) :
      Reachable blockpos_over_max_limit w →
      (createBlankBlockNoInsert blockpos_over_max_limit w y).1.recoverable = true →
      Reachable blockpos_over_max_limit
        (createBlankBlockNoInsert blockpos_over_max_limit w y).2
  | step_createBlankBlock {w : World} (y : s16) :
      Reachable blockpos_over_max_limit w →
      (createBlankBlock blockpos_over_max_limit w y).1.recoverable = true →
      Reachable blockpos_over_max_limit
        (createBlankBlock blockpos_over_max_limit w y).2
  | step_insertBlock {w : World} (block : Ptr) :
      Reachable blockpos_over_max_limit w →
      ¬ w.sector.owns block →
      (insertBlock w block).1.recoverable = true →
      Reachable blockpos_over_max_limit (insertBlock w block).2
  | step_detachBlock {w : World} (block : Ptr) :
      Reachable blockpos_over_max_limit w →
      (detachBlock w block).1.recoverable = true →
      Reachable blockpos_over_max_limit (detachBlock w block).2
  | step_deleteBlock {w : World} (block : Ptr) :
      Reachable blockpos_over_max_limit w →
      (deleteBlock w block).1.recoverable = true →
      Reachable blockpos_over_max_limit (deleteBlock w block).2
  | step_deleteBlocks {w : World} (used_count : Option size_t) :
      Reachable blockpos_over_max_limit w →
      (deleteBlocks w used_count).1.recoverable = true →
      Reachable blockpos_over_max_limit (deleteBlocks w used_count).2
  | step_getBlocks {w : World} (dest : MapBlockVect) :
      Reachable blockpos_over_max_limit w →
      Reachable blockpos_over_max_limit
        { w with sector := (w.sector.getBlocks dest).2 }
  | step_external {w : World} (h2 : Heap) :
      Reachable blockpos_over_max_limit w →
      ExternalStep w.sector w.heap h2 →
      Reachable blockpos_over_max_limit { w with heap := h2 }

/-- The cache invariant: a non-null cache slot is the block stored in
`m_blocks` at key `m_block_cache_y`. -/
def CacheInv (s : MapSector) : Prop :=
  ∀ c, s.m_block_cache = some c → s.m_blocks.find s.m_block_cache_y = some (some c)

/-- The column invariant: every entry `(k, b)` of `m_blocks` owns a live block
whose position is `(m_pos.X, k, m_pos.Y)`. -/
def ColumnInv (w : World) : Prop :=
  ∀ k u, (k, u) ∈ w.sector.m_blocks →
    ∃ p b, u = some p ∧ w.heap.deref p = some b ∧
      b.getPos = ⟨w.sector.m_pos.X, k, w.sector.m_pos.Y⟩

/-- The keys of `m_blocks` are pairwise different. -/
def KeysNodup (m : BlockMap) : Prop := (m.map Prod.fst).Nodup

/-- The three invariants together. -/
structure Inv (w : World) : Prop where
  cache : CacheInv w.sector
  column : ColumnInv w
  keys : KeysNodup w.sector.m_blocks

/-- A limit predicate for the examples: a block position is over the limit when
one of its components is outside `-1937 .. 1937`. -/
def exampleLimit (p : v3s16) : Bool :=
  decide (p.X < -1937) || decide (1937 < p.X) || decide (p.Y < -1937) ||
  decide (1937 < p.Y) || decide (p.Z < -1937) || decide (1937 < p.Z)

/-- A new sector at horizontal position `(3, -2)` on an empty heap. -/
def exampleWorld : World := ⟨[], MapSector.new 0 ⟨3, -2⟩ 0⟩

/-- The example sector after `createBlankBlock(0)`: it owns one block, at
address 0, stored at vertical coordinate 0. -/
def exampleWorld1 : World := (createBlankBlock exampleLimit exampleWorld 0).2

/-- A new sector at `(3, -2)` next to a block at address 0 that other code
constructed at position `(3, 0, -2)` and owns. -/
def exampleWorld2 : World :=
  ⟨[some (MapBlock.new ⟨3, 0, -2⟩ 7)], MapSector.new 0 ⟨3, -2⟩ 0⟩

/-- The sector of `exampleWorld2` after `createBlankBlock(0)`: it owns the block
at address 1, stored at vertical coordinate 0; the block at address 0 is still
owned by other code. -/
def exampleWorld3 : World := (createBlankBlock exampleLimit exampleWorld2 0).2

/-! ## Further definitions: block counting, `vector2d` comparisons -/

/-- The test of the loop in `deleteBlocks` on one entry: the entry owns a live
block with `refGet() > 0`. -/
def Heap.inUse (h : Heap) (e : s16 × unique_ptr) : Bool :=
  match e.2 with
  | none => false
  | some p =>
    match h.deref p with
    | none => false
    | some b => decide (b.refGet > 0)

/-- The number of contained blocks that have a positive reference count (the
`K` of the bulk delete accounting). -/
def countUsed (h : Heap) (m : BlockMap) : Nat := m.countP (Heap.inUse h)

/-- The comparison `vector2d::operator<`:
`X < other.X || (X == other.X && Y < other.Y)`. -/
def vector2d.lt (a other : vector2d) : Bool :=
  decide (a.X < other.X) || (a.X == other.X && decide (a.Y < other.Y))

/-- The comparison `vector2d::operator>`:
`X > other.X || (X == other.X && Y > other.Y)`. -/
def vector2d.gt (a other : vector2d) : Bool :=
  decide (a.X > other.X) || (a.X == other.X && decide (a.Y > other.Y))

/-- The comparison `vector2d::operator<=`: `!(*this > other)`. -/
def vector2d.le (a other : vector2d) : Bool := !(a.gt other)

/-- The comparison `vector2d::operator>=`: `!(*this < other)`. -/
def vector2d.ge (a other : vector2d) : Bool := !(a.lt other)

/-- The comparison `vector2d::operator!=`: `!(*this == other)`. -/
def vector2d.ne (a other : vector2d) : Bool := !(a.eq other)

/-- A new sector at `(3, -2)` next to a block at address 0 that other code
constructed at position `(3, 0, -2)` and holds two references to. -/
def exampleWorld4 : World :=
  ⟨[some { m_pos := ⟨3, 0, -2⟩, m_gamedef := 7, m_refcount := 2, m_orphan := false }],
   MapSector.new 0 ⟨3, -2⟩ 0⟩

/-- The sector of `exampleWorld4` after `insertBlock` of the block at address 0
and `createBlankBlock(5)`: it owns two blocks, one of them referenced. -/
def exampleWorld5 : World :=
  (createBlankBlock exampleLimit (insertBlock exampleWorld4 0).2 5).2

/-! ## Further definitions: the cache check, orientation of three points -/

/-- The condition of the `if` in `MapSector::getBlockBuffered` (line 41):
`m_block_cache && y == m_block_cache_y`.  When it holds the function returns
the cache slot without a lookup in `m_blocks`. -/
def MapSector.cacheHit (s : MapSector) (y : s16) : Bool :=
  s.m_block_cache.isSome && decide (y = s.m_block_cache_y)

/-- The method `vector2d::checkOrientation` at an integer component type, with
exact arithmetic. -/
def vector2d.checkOrientation (a b c : vector2d) : Int :=
  let val := (b.Y - a.Y) * (c.X - b.X) - (b.X - a.X) * (c.Y - b.Y)
  if val = 0 then 0
  else if val > 0 then 1 else 2

/-- The method `vector2d::areClockwise`. -/
def vector2d.areClockwise (a b c : vector2d) : Bool :=
  let val := (b.Y - a.Y) * (c.X - b.X) - (b.X - a.X) * (c.Y - b.Y)
  decide (val > 0)

/-- The method `vector2d::areCounterClockwise`. -/
def vector2d.areCounterClockwise (a b c : vector2d) : Bool :=
  let val := (b.Y - a.Y) * (c.X - b.X) - (b.X - a.X) * (c.Y - b.Y)
  decide (val < 0)

/-- Twice the signed area of the triangle `a`, `b`, `c`, with the Y axis
pointing up: zero when the points are colinear, negative when they are in
clockwise order, positive when they are in anticlockwise order. -/
def signedArea2 (a b c : vector2d) : Int :=
  (b.X - a.X) * (c.Y - a.Y) - (b.Y - a.Y) * (c.X - a.X)

/-- A sector at `(3, -2)` that owns the block at address 1, stored at vertical
coordinate 0 and held by the cache slot after `getBlockBuffered(0)`; the block
at address 0, constructed by other code at `(3, 5, -2)`, is not in the sector. -/
def exampleWorld6 : World :=
  { (createBlankBlock exampleLimit
      ⟨[some (MapBlock.new ⟨3, 5, -2⟩ 7)], MapSector.new 0 ⟨3, -2⟩ 0⟩ 0).2 with
    sector := ((createBlankBlock exampleLimit
      ⟨[some (MapBlock.new ⟨3, 5, -2⟩ 7)], MapSector.new 0 ⟨3, -2⟩ 0⟩ 0).2.sector.getBlockBuffered
        0).2 }

/-! ## Heap and container lemmas -/


theorem Heap.deref_lt {h : Heap} {p : Ptr} {b : MapBlock}
    (hb : h.deref p = some b) : p < h.length := by
  by_contra hc
  unfold Heap.deref at hb
  rw [List.getD_eq_default _ _ (Nat.le_of_not_lt hc)] at hb
  cases hb

theorem Heap.deref_append {h : Heap} {p : Ptr} {b : MapBlock} (x : Option MapBlock)
    (hb : h.deref p = some b) : Heap.deref (h ++ [x]) p = some b := by
  have hp := Heap.deref_lt hb
  unfold Heap.deref at hb ⊢
  rw [List.getD_append _ _ _ _ hp]
  exact hb

theorem Heap.deref_append_length (h : Heap) (x : Option MapBlock) :
    Heap.deref (h ++ [x]) h.length = x := by
  simp [Heap.deref, List.getD_eq_getElem?_getD]

theorem Heap.deref_set_ne (h : Heap) {p q : Ptr} (x : Option MapBlock) (hne : q ≠ p) :
    Heap.deref (h.set p x) q = h.deref q := by
  simp [Heap.deref, List.getD_eq_getElem?_getD, List.getElem?_set, hne.symm]

theorem Heap.deref_set_self {h : Heap} {p : Ptr} {b : MapBlock} (x : Option MapBlock)
    (hb : h.deref p = some b) : Heap.deref (h.set p x) p = x := by
  have hp := Heap.deref_lt hb
  simp [Heap.deref, List.getD_eq_getElem?_getD, List.getElem?_set, hp]

theorem BlockMap.find_mem {m : BlockMap} {y : s16} {u : unique_ptr}
    (h : BlockMap.find m y = some u) : (y, u) ∈ m := by
  induction m with
  | nil => simp [BlockMap.find] at h
  | cons e rest ih =>
    obtain ⟨k, v⟩ := e
    unfold BlockMap.find at h
    split at h
    · rename_i hk
      cases h
      subst hk
      exact List.mem_cons_self _ _
    · exact List.mem_cons_of_mem _ (ih h)

theorem BlockMap.find_none {m : BlockMap} {y : s16}
    (h : BlockMap.find m y = none) (u : unique_ptr) : (y, u) ∉ m := by
  induction m with
  | nil => simp
  | cons e rest ih =>
    obtain ⟨k, v⟩ := e
    unfold BlockMap.find at h
    split at h
    · cases h
    · rename_i hk
      intro hm
      rcases List.mem_cons.mp hm with heq | hr
      · cases heq
        exact hk rfl
      · exact ih h hr

theorem BlockMap.find_none_keys {m : BlockMap} {y : s16}
    (h : BlockMap.find m y = none) : y ∉ m.map Prod.fst := by
  intro hm
  obtain ⟨e, he, hy⟩ := List.mem_map.mp hm
  obtain ⟨k, v⟩ := e
  simp only at hy
  subst hy
  exact BlockMap.find_none h v he

theorem BlockMap.find_of_mem {m : BlockMap} (hn : KeysNodup m) {y : s16} {u : unique_ptr}
    (h : (y, u) ∈ m) : BlockMap.find m y = some u := by
  induction m with
  | nil => simp at h
  | cons e rest ih =>
    obtain ⟨k, v⟩ := e
    unfold KeysNodup at hn
    simp only [List.map_cons, List.nodup_cons] at hn
    unfold BlockMap.find
    rcases List.mem_cons.mp h with heq | hr
    · cases heq
      simp
    · have hk : k ≠ y := by
        intro hky
        subst hky
        exact hn.1 (List.mem_map.mpr ⟨(k, u), hr, rfl⟩)
      simp only [hk, if_false]
      exact ih hn.2 hr

theorem BlockMap.mem_erase {m : BlockMap} {y k : s16} {u : unique_ptr}
    (h : (k, u) ∈ BlockMap.erase m y) : (k, u) ∈ m := by
  induction m with
  | nil => simp [BlockMap.erase] at h
  | cons e rest ih =>
    obtain ⟨k2, v⟩ := e
    unfold BlockMap.erase at h
    split at h
    · exact List.mem_cons_of_mem _ h
    · rcases List.mem_cons.mp h with heq | hr
      · rw [heq]
        exact List.mem_cons_self _ _
      · exact List.mem_cons_of_mem _ (ih hr)

theorem BlockMap.keys_erase {m : BlockMap} (hn : KeysNodup m) (y : s16) :
    KeysNodup (BlockMap.erase m y) := by
  induction m with
  | nil => simpa [BlockMap.erase] using hn
  | cons e rest ih =>
    obtain ⟨k, v⟩ := e
    unfold KeysNodup at hn ih ⊢
    simp only [List.map_cons, List.nodup_cons] at hn
    unfold BlockMap.erase
    split
    · exact hn.2
    · simp only [List.map_cons, List.nodup_cons]
      refine ⟨?_, ih hn.2⟩
      intro hm
      obtain ⟨e, he, hk⟩ := List.mem_map.mp hm
      obtain ⟨k3, v3⟩ := e
      simp only at hk
      subst hk
      exact hn.1 (List.mem_map.mpr ⟨(k3, v3), BlockMap.mem_erase he, rfl⟩)

theorem BlockMap.not_mem_erase {m : BlockMap} (hn : KeysNodup m) (y : s16)
    (u : unique_ptr) : (y, u) ∉ BlockMap.erase m y := by
  induction m with
  | nil => simp [BlockMap.erase]
  | cons e rest ih =>
    obtain ⟨k, v⟩ := e
    unfold KeysNodup at hn ih
    simp only [List.map_cons, List.nodup_cons] at hn
    unfold BlockMap.erase
    split
    · rename_i hk
      subst hk
      intro hm
      exact hn.1 (List.mem_map.mpr ⟨(k, u), hm, rfl⟩)
    · rename_i hk
      intro hm
      rcases List.mem_cons.mp hm with heq | hr
      · cases heq
        exact hk rfl
      · exact ih hn.2 hr

theorem BlockMap.find_erase_ne (m : BlockMap) {y k : s16} (hne : k ≠ y) :
    BlockMap.find (BlockMap.erase m y) k = BlockMap.find m k := by
  induction m with
  | nil => simp [BlockMap.erase]
  | cons e rest ih =>
    obtain ⟨k2, v⟩ := e
    unfold BlockMap.erase
    split
    · rename_i hk
      subst hk
      have : ¬ k2 = k := fun h => hne h.symm
      simp [BlockMap.find, this]
    · by_cases hk2 : k2 = k
      · simp [BlockMap.find, hk2]
      · simp [BlockMap.find, hk2, ih]

theorem BlockMap.length_erase {m : BlockMap} {y : s16} {u : unique_ptr}
    (h : BlockMap.find m y = some u) :
    (BlockMap.erase m y).length + 1 = m.length := by
  induction m with
  | nil => simp [BlockMap.find] at h
  | cons e rest ih =>
    obtain ⟨k, v⟩ := e
    unfold BlockMap.find at h
    unfold BlockMap.erase
    split
    · rfl
    · rename_i hk
      simp only [hk, if_false] at h
      simp [ih h]

/-! ## The operations, case by case -/


theorem getBlockBuffered_blocks (s : MapSector) (y : s16) :
    (s.getBlockBuffered y).2.m_blocks = s.m_blocks := by
  unfold MapSector.getBlockBuffered
  split <;> rfl

theorem getBlockBuffered_pos (s : MapSector) (y : s16) :
    (s.getBlockBuffered y).2.m_pos = s.m_pos := by
  unfold MapSector.getBlockBuffered
  split <;> rfl

theorem getBlockBuffered_gamedef (s : MapSector) (y : s16) :
    (s.getBlockBuffered y).2.m_gamedef = s.m_gamedef := by
  unfold MapSector.getBlockBuffered
  split <;> rfl

theorem getBlockBuffered_eq_lookup {s : MapSector} (hc : CacheInv s) (y : s16) :
    (s.getBlockBuffered y).1 = s.lookup y := by
  unfold MapSector.getBlockBuffered
  split
  · rename_i hhit
    simp only [Bool.and_eq_true, decide_eq_true_eq] at hhit
    obtain ⟨hsome, hy⟩ := hhit
    obtain ⟨c, hcache⟩ := Option.isSome_iff_exists.mp hsome
    have hfind := hc c hcache
    simp only [MapSector.lookup, hy, hfind, hcache]
  · rfl

theorem getBlockBuffered_cacheInv {s : MapSector} (hc : CacheInv s) (y : s16) :
    CacheInv (s.getBlockBuffered y).2 := by
  unfold MapSector.getBlockBuffered
  split
  · exact hc
  · intro c hcache
    simp only [MapSector.lookup] at hcache
    simp only
    split at hcache
    · rename_i u hfind
      rw [hfind, hcache]
    · cases hcache

theorem getBlockBuffered_none {s : MapSector} {y : s16}
    (h : (s.getBlockBuffered y).1 = none) :
    s.lookup y = none ∧
    (s.getBlockBuffered y).2 = { s with m_block_cache_y := y, m_block_cache := none } := by
  unfold MapSector.getBlockBuffered at h ⊢
  split
  · rename_i hhit
    simp only [hhit, if_true] at h
    simp only [Bool.and_eq_true] at hhit
    rw [h] at hhit
    simp at hhit
  · rename_i hhit
    simp only [hhit] at h
    simp only [Bool.false_eq_true, if_false] at h
    simp only [h, and_self]

theorem lookup_eq_none_iff {w : World} (hcol : ColumnInv w) (y : s16) :
    w.sector.lookup y = none ↔ BlockMap.find w.sector.m_blocks y = none := by
  unfold MapSector.lookup
  constructor
  · intro h
    split at h
    · rename_i u hfind
      obtain ⟨p, b, hu, -, -⟩ := hcol y u (BlockMap.find_mem hfind)
      rw [hu] at h
      cases h
    · assumption
  · intro h
    rw [h]

theorem ColumnInv.mono {w w2 : World} (hcol : ColumnInv w)
    (hpos : w2.sector.m_pos = w.sector.m_pos)
    (hsub : ∀ k u, (k, u) ∈ w2.sector.m_blocks → (k, u) ∈ w.sector.m_blocks)
    (hheap : ∀ k p b, (k, some p) ∈ w2.sector.m_blocks → w.heap.deref p = some b →
      ∃ b2, w2.heap.deref p = some b2 ∧ b2.getPos = b.getPos) :
    ColumnInv w2 := by
  intro k u hm
  obtain ⟨p, b, hu, hd, hp⟩ := hcol k u (hsub k u hm)
  subst hu
  obtain ⟨b2, hd2, hp2⟩ := hheap k p b hm hd
  exact ⟨p, b2, rfl, hd2, by rw [hp2, hp, hpos]⟩

theorem createBlankBlockNoInsert_assert (lim : v3s16 → Bool) (w : World) (y : s16)
    (h : (w.sector.getBlockBuffered y).1.isSome = true) :
    createBlankBlockNoInsert lim w y =
      (.assertion_failed, { w with sector := (w.sector.getBlockBuffered y).2 }) := by
  simp [createBlankBlockNoInsert, h]

theorem createBlankBlockNoInsert_limit (lim : v3s16 → Bool) (w : World) (y : s16)
    (h : (w.sector.getBlockBuffered y).1 = none) (hl : lim ⟨0, y, 0⟩ = true) :
    createBlankBlockNoInsert lim w y =
      (.InvalidPositionException,
        { w with sector := { w.sector with m_block_cache_y := y, m_block_cache := none } }) := by
  simp [createBlankBlockNoInsert, h, hl, (getBlockBuffered_none h).2]

theorem createBlankBlockNoInsert_ok (lim : v3s16 → Bool) (w : World) (y : s16)
    (h : (w.sector.getBlockBuffered y).1 = none) (hl : lim ⟨0, y, 0⟩ = false) :
    createBlankBlockNoInsert lim w y =
      (.ok w.heap.length,
        { heap := w.heap ++
            [some (MapBlock.new ⟨w.sector.m_pos.X, y, w.sector.m_pos.Y⟩ w.sector.m_gamedef)],
          sector := { w.sector with m_block_cache_y := y, m_block_cache := none } }) := by
  simp [createBlankBlockNoInsert, h, hl, (getBlockBuffered_none h).2, Heap.make_unique]

theorem createBlankBlock_assert (lim : v3s16 → Bool) (w : World) (y : s16)
    (h : (w.sector.getBlockBuffered y).1.isSome = true) :
    createBlankBlock lim w y =
      (.assertion_failed, { w with sector := (w.sector.getBlockBuffered y).2 }) := by
  simp [createBlankBlock, createBlankBlockNoInsert_assert lim w y h]

theorem createBlankBlock_limit (lim : v3s16 → Bool) (w : World) (y : s16)
    (h : (w.sector.getBlockBuffered y).1 = none) (hl : lim ⟨0, y, 0⟩ = true) :
    createBlankBlock lim w y =
      (.InvalidPositionException,
        { w with sector := { w.sector with m_block_cache_y := y, m_block_cache := none } }) := by
  simp [createBlankBlock, createBlankBlockNoInsert_limit lim w y h hl]

theorem createBlankBlock_ok (lim : v3s16 → Bool) (w : World) (y : s16)
    (h : (w.sector.getBlockBuffered y).1 = none) (hl : lim ⟨0, y, 0⟩ = false)
    (hf : BlockMap.find w.sector.m_blocks y = none) :
    createBlankBlock lim w y =
      (.ok w.heap.length,
        { heap := w.heap ++
            [some (MapBlock.new ⟨w.sector.m_pos.X, y, w.sector.m_pos.Y⟩ w.sector.m_gamedef)],
          sector := { w.sector with
            m_block_cache_y := y, m_block_cache := none,
            m_blocks := (y, some w.heap.length) :: w.sector.m_blocks } }) := by
  simp [createBlankBlock, createBlankBlockNoInsert_ok lim w y h hl, BlockMap.assign, hf]

theorem insertBlock_exists (w : World) (block : Ptr) (b : MapBlock)
    (hb : w.heap.deref block = some b)
    (h : (w.sector.getBlockBuffered b.getPos.Y).1.isSome = true) :
    insertBlock w block =
      (.AlreadyExistsException,
        { heap := w.heap.destroy block,
          sector := (w.sector.getBlockBuffered b.getPos.Y).2 }) := by
  simp [insertBlock, hb, h]

theorem insertBlock_ok (w : World) (block : Ptr) (b : MapBlock)
    (hb : w.heap.deref block = some b)
    (h : (w.sector.getBlockBuffered b.getPos.Y).1 = none)
    (hf : BlockMap.find w.sector.m_blocks b.getPos.Y = none)
    (hp : vector2d.eq ⟨b.getPos.X, b.getPos.Z⟩ w.sector.m_pos = true) :
    insertBlock w block =
      (.ok (),
        { heap := w.heap,
          sector := { w.sector with
            m_block_cache_y := b.getPos.Y, m_block_cache := none,
            m_blocks := (b.getPos.Y, some block) :: w.sector.m_blocks } }) := by
  simp [insertBlock, hb, h, (getBlockBuffered_none h).2, hp, BlockMap.assign, hf]

theorem insertBlock_assert (w : World) (block : Ptr) (b : MapBlock)
    (hb : w.heap.deref block = some b)
    (h : (w.sector.getBlockBuffered b.getPos.Y).1 = none)
    (hp : vector2d.eq ⟨b.getPos.X, b.getPos.Z⟩ w.sector.m_pos = false) :
    insertBlock w block =
      (.assertion_failed,
        { w with sector :=
            { w.sector with m_block_cache_y := b.getPos.Y, m_block_cache := none } }) := by
  simp [insertBlock, hb, h, (getBlockBuffered_none h).2, hp]

theorem detachBlock_ok (w : World) (block : Ptr) (b : MapBlock)
    (hb : w.heap.deref block = some b)
    (hf : BlockMap.find w.sector.m_blocks b.getPos.Y = some (some block)) :
    detachBlock w block =
      (.ok block,
        { heap := w.heap.store block b.makeOrphan,
          sector := { w.sector with
            m_block_cache := none,
            m_blocks := BlockMap.erase w.sector.m_blocks b.getPos.Y } }) := by
  simp [detachBlock, hb, hf]

theorem detachBlock_recoverable {w : World} {block : Ptr}
    (h : (detachBlock w block).1.recoverable = true) :
    ∃ b, w.heap.deref block = some b ∧
      BlockMap.find w.sector.m_blocks b.getPos.Y = some (some block) := by
  unfold detachBlock at h
  split at h
  · simp [Result.recoverable] at h
  · rename_i b hb
    refine ⟨b, hb, ?_⟩
    simp only at h
    split at h
    · simp [Result.recoverable] at h
    · rename_i ret hfind
      split at h
      · rename_i hret
        rw [hfind, hret]
      · simp [Result.recoverable] at h

theorem deleteBlock_ok (w : World) (block : Ptr) (b : MapBlock)
    (hb : w.heap.deref block = some b)
    (hf : BlockMap.find w.sector.m_blocks b.getPos.Y = some (some block)) :
    deleteBlock w block =
      (.ok (),
        { heap := Heap.destroy (w.heap.store block b.makeOrphan) block,
          sector := { w.sector with
            m_block_cache := none,
            m_blocks := BlockMap.erase w.sector.m_blocks b.getPos.Y } }) := by
  simp [deleteBlock, detachBlock_ok w block b hb hf]

theorem deleteBlock_recoverable {w : World} {block : Ptr}
    (h : (deleteBlock w block).1.recoverable = true) :
    (detachBlock w block).1.recoverable = true := by
  unfold deleteBlock at h
  split at h <;> rename_i heq <;> simp_all [Result.recoverable]

theorem deleteBlocks_recoverable {w : World} {used_count : Option size_t}
    (h : (deleteBlocks w used_count).1.recoverable = true) :
    (deleteBlocks w used_count).2.sector =
      { w.sector with m_block_cache := none, m_blocks := [] } := by
  unfold deleteBlocks at h ⊢
  simp only at h ⊢
  cases hl : deleteBlocksLoop w.heap w.sector.m_blocks 0 with
  | none =>
    rw [hl] at h
    simp [Result.recoverable] at h
  | some r => rfl

/-! ## The invariants hold in every reachable state -/


theorem Inv.construct (h : Heap) (parent : Nat) (pos : v2s16) (gamedef : Nat) :
    Inv ⟨h, MapSector.new parent pos gamedef⟩ := by
  refine ⟨?_, ?_, ?_⟩
  · intro c hc
    simp [MapSector.new] at hc
  · intro k u hm
    simp [MapSector.new] at hm
  · simp [KeysNodup, MapSector.new]

theorem Inv.step_getBlockBuffered {w : World} (hi : Inv w) (y : s16) :
    Inv { w with sector := (w.sector.getBlockBuffered y).2 } := by
  refine ⟨getBlockBuffered_cacheInv hi.cache y, ?_, ?_⟩
  · refine ColumnInv.mono hi.column (getBlockBuffered_pos _ _) ?_ ?_
    · intro k u hm
      simpa [getBlockBuffered_blocks] using hm
    · intro k p b _ hd
      exact ⟨b, hd, rfl⟩
  · simpa [getBlockBuffered_blocks] using hi.keys

theorem Inv.find_none_of_getBlockBuffered {w : World} (hi : Inv w) {y : s16}
    (h : (w.sector.getBlockBuffered y).1 = none) :
    BlockMap.find w.sector.m_blocks y = none :=
  (lookup_eq_none_iff hi.column y).mp (getBlockBuffered_none h).1

theorem Inv.getBlockBuffered_none_of_find {w : World} (hi : Inv w) {y : s16}
    (h : BlockMap.find w.sector.m_blocks y = none) :
    (w.sector.getBlockBuffered y).1 = none := by
  rw [getBlockBuffered_eq_lookup hi.cache]
  exact (lookup_eq_none_iff hi.column y).mpr h

theorem Inv.insert_entry {w : World} (hi : Inv w) (y : s16) (p : Ptr) (b : MapBlock)
    (h2 : Heap) (hf : BlockMap.find w.sector.m_blocks y = none)
    (hd : h2.deref p = some b)
    (hpos : b.getPos = ⟨w.sector.m_pos.X, y, w.sector.m_pos.Y⟩)
    (hheap : ∀ q c, w.heap.deref q = some c → h2.deref q = some c) :
    Inv { heap := h2,
          sector := { w.sector with
            m_block_cache_y := y, m_block_cache := none,
            m_blocks := (y, some p) :: w.sector.m_blocks } } := by
  refine ⟨?_, ?_, ?_⟩
  · intro c hc
    cases hc
  · intro k u hm
    simp only at hm
    rcases List.mem_cons.mp hm with heq | hr
    · cases heq
      exact ⟨p, b, rfl, hd, hpos⟩
    · obtain ⟨q, c, hu, hdq, hpq⟩ := hi.column k u hr
      exact ⟨q, c, hu, hheap q c hdq, hpq⟩
  · show KeysNodup ((y, some p) :: w.sector.m_blocks)
    unfold KeysNodup
    simp only [List.map_cons, List.nodup_cons]
    exact ⟨BlockMap.find_none_keys hf, hi.keys⟩

theorem Inv.cache_reset {w : World} (hi : Inv w) (y : s16) (h2 : Heap)
    (hheap : ∀ q c, w.sector.owns q → w.heap.deref q = some c → h2.deref q = some c) :
    Inv { heap := h2,
          sector := { w.sector with m_block_cache_y := y, m_block_cache := none } } := by
  refine ⟨?_, ?_, hi.keys⟩
  · intro c hc
    cases hc
  · intro k u hm
    obtain ⟨q, c, hu, hdq, hpq⟩ := hi.column k u hm
    subst hu
    exact ⟨q, c, rfl, hheap q c ⟨k, hm⟩ hdq, hpq⟩

theorem Inv.step_createBlankBlockNoInsert (lim : v3s16 → Bool) {w : World} (hi : Inv w)
    (y : s16) (hr : (createBlankBlockNoInsert lim w y).1.recoverable = true) :
    Inv (createBlankBlockNoInsert lim w y).2 := by
  cases hg : (w.sector.getBlockBuffered y).1 with
  | some c =>
    rw [createBlankBlockNoInsert_assert lim w y (by simp [hg])] at hr
    simp [Result.recoverable] at hr
  | none =>
    cases hl : lim ⟨0, y, 0⟩ with
    | true =>
      rw [createBlankBlockNoInsert_limit lim w y hg hl]
      exact hi.cache_reset y w.heap (fun _ _ _ h => h)
    | false =>
      rw [createBlankBlockNoInsert_ok lim w y hg hl]
      exact hi.cache_reset y _ (fun _ _ _ h => Heap.deref_append _ h)

theorem Inv.step_createBlankBlock (lim : v3s16 → Bool) {w : World} (hi : Inv w)
    (y : s16) (hr : (createBlankBlock lim w y).1.recoverable = true) :
    Inv (createBlankBlock lim w y).2 := by
  cases hg : (w.sector.getBlockBuffered y).1 with
  | some c =>
    rw [createBlankBlock_assert lim w y (by simp [hg])] at hr
    simp [Result.recoverable] at hr
  | none =>
    cases hl : lim ⟨0, y, 0⟩ with
    | true =>
      rw [createBlankBlock_limit lim w y hg hl]
      exact hi.cache_reset y w.heap (fun _ _ _ h => h)
    | false =>
      rw [createBlankBlock_ok lim w y hg hl (hi.find_none_of_getBlockBuffered hg)]
      exact hi.insert_entry y _ _ _ (hi.find_none_of_getBlockBuffered hg)
        (Heap.deref_append_length _ _) rfl (fun _ _ h => Heap.deref_append _ h)

theorem Inv.step_insertBlock {w : World} (hi : Inv w) (block : Ptr)
    (hown : ¬ w.sector.owns block)
    (hr : (insertBlock w block).1.recoverable = true) :
    Inv (insertBlock w block).2 := by
  cases hb : w.heap.deref block with
  | none =>
    simp [insertBlock, hb, Result.recoverable] at hr
  | some b =>
    cases hg : (w.sector.getBlockBuffered b.getPos.Y).1 with
    | some c =>
      rw [insertBlock_exists w block b hb (by simp [hg])]
      have h1 := hi.step_getBlockBuffered b.getPos.Y
      refine ⟨h1.cache, ?_, h1.keys⟩
      refine ColumnInv.mono h1.column rfl (fun _ _ h => h) ?_
      intro k p c2 hm hd
      have hne : p ≠ block := by
        intro hpb
        subst hpb
        apply hown
        refine ⟨k, ?_⟩
        simpa [getBlockBuffered_blocks] using hm
      refine ⟨c2, ?_, rfl⟩
      show Heap.deref (List.set w.heap block none) p = some c2
      rw [Heap.deref_set_ne _ _ hne]
      exact hd
    | none =>
      cases hp : vector2d.eq ⟨b.getPos.X, b.getPos.Z⟩ w.sector.m_pos with
      | false =>
        rw [insertBlock_assert w block b hb hg hp] at hr
        simp [Result.recoverable] at hr
      | true =>
        rw [insertBlock_ok w block b hb hg (hi.find_none_of_getBlockBuffered hg) hp]
        refine hi.insert_entry _ _ b _ (hi.find_none_of_getBlockBuffered hg) hb ?_
          (fun _ _ h => h)
        simp only [vector2d.eq, Bool.and_eq_true, beq_iff_eq] at hp
        rw [← hp.1, ← hp.2]

theorem Inv.not_owns_after_erase {w : World} (hi : Inv w) {block : Ptr} {b : MapBlock}
    (hb : w.heap.deref block = some b) (k : s16) :
    (k, some block) ∉ BlockMap.erase w.sector.m_blocks b.getPos.Y := by
  intro hm
  obtain ⟨p, c, hu, hd, hpos⟩ := hi.column k (some block) (BlockMap.mem_erase hm)
  cases hu
  rw [hb] at hd
  cases hd
  have hk : b.getPos.Y = k := by rw [hpos]
  rw [hk] at hm
  exact BlockMap.not_mem_erase hi.keys k _ hm

theorem Inv.step_detachBlock {w : World} (hi : Inv w) (block : Ptr)
    (hr : (detachBlock w block).1.recoverable = true) :
    Inv (detachBlock w block).2 := by
  obtain ⟨b, hb, hf⟩ := detachBlock_recoverable hr
  rw [detachBlock_ok w block b hb hf]
  refine ⟨?_, ?_, BlockMap.keys_erase hi.keys _⟩
  · intro c hc
    cases hc
  · refine ColumnInv.mono hi.column rfl (fun _ _ h => BlockMap.mem_erase h) ?_
    intro k p c hm hd
    have hne : p ≠ block := by
      intro hpb
      subst hpb
      exact hi.not_owns_after_erase hb k hm
    refine ⟨c, ?_, rfl⟩
    show Heap.deref (List.set w.heap block _) p = some c
    rw [Heap.deref_set_ne _ _ hne]
    exact hd

theorem Inv.step_deleteBlock {w : World} (hi : Inv w) (block : Ptr)
    (hr : (deleteBlock w block).1.recoverable = true) :
    Inv (deleteBlock w block).2 := by
  obtain ⟨b, hb, hf⟩ := detachBlock_recoverable (deleteBlock_recoverable hr)
  rw [deleteBlock_ok w block b hb hf]
  refine ⟨?_, ?_, BlockMap.keys_erase hi.keys _⟩
  · intro c hc
    cases hc
  · refine ColumnInv.mono hi.column rfl (fun _ _ h => BlockMap.mem_erase h) ?_
    intro k p c hm hd
    have hne : p ≠ block := by
      intro hpb
      subst hpb
      exact hi.not_owns_after_erase hb k hm
    refine ⟨c, ?_, rfl⟩
    show Heap.deref (List.set (List.set w.heap block _) block none) p = some c
    rw [Heap.deref_set_ne _ _ hne, Heap.deref_set_ne _ _ hne]
    exact hd

theorem Inv.step_deleteBlocks {w : World} (used_count : Option size_t)
    (hr : (deleteBlocks w used_count).1.recoverable = true) :
    Inv (deleteBlocks w used_count).2 := by
  have hs := deleteBlocks_recoverable hr
  refine ⟨?_, ?_, ?_⟩
  · intro c hc
    rw [hs] at hc
    cases hc
  · intro k u hm
    rw [hs] at hm
    simp at hm
  · rw [hs]
    simp [KeysNodup]

theorem Inv.step_external {w : World} (hi : Inv w) (h2 : Heap)
    (he : ExternalStep w.sector w.heap h2) : Inv { w with heap := h2 } := by
  refine ⟨hi.cache, ?_, hi.keys⟩
  refine ColumnInv.mono hi.column rfl (fun _ _ h => h) ?_
  intro k p b hm hd
  exact he.2 p ⟨k, hm⟩ b hd

theorem Reachable.inv {lim : v3s16 → Bool} {w : World} (hr : Reachable lim w) : Inv w := by
  induction hr with
  | construct h parent pos gamedef => exact Inv.construct h parent pos gamedef
  | step_getBlockBuffered y _ ih => exact ih.step_getBlockBuffered y
  | step_createBlankBlockNoInsert y _ hrec ih => exact ih.step_createBlankBlockNoInsert lim y hrec
  | step_createBlankBlock y _ hrec ih => exact ih.step_createBlankBlock lim y hrec
  | step_insertBlock block _ hown hrec ih => exact ih.step_insertBlock block hown hrec
  | step_detachBlock block _ hrec ih => exact ih.step_detachBlock block hrec
  | step_deleteBlock block _ hrec ih => exact ih.step_deleteBlock block hrec
  | step_deleteBlocks used_count _ hrec _ => exact Inv.step_deleteBlocks used_count hrec
  | step_getBlocks dest _ ih => exact ih
  | step_external h2 _ he ih => exact ih.step_external h2 he

/-! ## Further facts used by the claims -/


theorem lookup_eq_some_iff {w : World} (hi : Inv w) (y : s16) (p : Ptr) :
    w.sector.lookup y = some p ↔ (y, some p) ∈ w.sector.m_blocks := by
  unfold MapSector.lookup
  constructor
  · intro h
    split at h
    · rename_i u hfind
      subst h
      exact BlockMap.find_mem hfind
    · cases h
  · intro hm
    rw [BlockMap.find_of_mem hi.keys hm]

theorem getBlockBuffered_after_reset (s : MapSector) (y : s16) (m : BlockMap) :
    (MapSector.getBlockBuffered
      { s with m_block_cache_y := y, m_block_cache := none, m_blocks := m } y).1 =
    MapSector.lookup { s with m_blocks := m } y := by
  simp [MapSector.getBlockBuffered, MapSector.lookup]

theorem createBlankBlock_ok_heap (lim : v3s16 → Bool) (w : World) (y : s16)
    (h : (w.sector.getBlockBuffered y).1 = none) (hl : lim ⟨0, y, 0⟩ = false) :
    (createBlankBlock lim w y).1 = .ok w.heap.length ∧
    (createBlankBlock lim w y).2.heap = w.heap ++
      [some (MapBlock.new ⟨w.sector.m_pos.X, y, w.sector.m_pos.Y⟩ w.sector.m_gamedef)] := by
  have hlook := (getBlockBuffered_none h).1
  cases hf : BlockMap.find w.sector.m_blocks y with
  | none =>
    rw [createBlankBlock_ok lim w y h hl hf]
    exact ⟨rfl, rfl⟩
  | some u =>
    have hu : u = none := by
      simpa [MapSector.lookup, hf] using hlook
    subst hu
    simp [createBlankBlock, createBlankBlockNoInsert_ok lim w y h hl, BlockMap.assign, hf,
      Heap.release]

/-! ## The claims -/

/-- C1 (cache coherence): in every state reachable from construction by calls
of the public member functions that return or throw, and for every vertical
coordinate `y`, `getBlockBuffered(y)` returns exactly what the direct keyed
lookup of `y` in `m_blocks` gives: the block stored at `y`, or null when there
is no entry at `y`. -/
theorem C1_getBlockBuffered_is_keyed_lookup (blockpos_over_max_limit : v3s16 → Bool)
    (w : World) (y : s16) (hr : Reachable blockpos_over_max_limit w) :
    (w.sector.getBlockBuffered y).1 = w.sector.lookup y ∧
    (∀ p, (w.sector.getBlockBuffered y).1 = some p ↔ (y, some p) ∈ w.sector.m_blocks) ∧
    ((w.sector.getBlockBuffered y).1 = none ↔ ∀ u, (y, u) ∉ w.sector.m_blocks) := by
  have hi := hr.inv
  have heq := getBlockBuffered_eq_lookup hi.cache y
  refine ⟨heq, ?_, ?_⟩
  · intro p
    rw [heq]
    exact lookup_eq_some_iff hi y p
  · rw [heq, lookup_eq_none_iff hi.column y]
    constructor
    · intro hf u
      exact BlockMap.find_none hf u
    · intro hno
      cases hf : BlockMap.find w.sector.m_blocks y with
      | none => rfl
      | some u => exact absurd (BlockMap.find_mem hf) (hno u)

/-- C1, at the example sector after `createBlankBlock(0)` and a buffered lookup
of 0, queried at 0. -/
theorem C1_getBlockBuffered_is_keyed_lookup_witness :
    (MapSector.getBlockBuffered (exampleWorld1.sector.getBlockBuffered 0).2 0).1 = some 0 ∧
    MapSector.lookup (exampleWorld1.sector.getBlockBuffered 0).2 0 = some 0 :=
  ⟨by decide,
   ((C1_getBlockBuffered_is_keyed_lookup exampleLimit
      { exampleWorld1 with sector := (exampleWorld1.sector.getBlockBuffered 0).2 } 0
      (Reachable.step_getBlockBuffered 0
        (Reachable.step_createBlankBlock 0 (Reachable.construct [] 0 ⟨3, -2⟩ 0)
          (by decide)))).1).symm.trans (by decide)⟩

/-- C2 (cache invariant): in every reachable state, a non-null `m_block_cache`
is the block that `m_blocks` stores at key `m_block_cache_y`; and after each
public member function called on such a state the same holds again, however
the call ends. -/
theorem C2_cache_invariant (blockpos_over_max_limit : v3s16 → Bool)
    (w : World) (hr : Reachable blockpos_over_max_limit w) :
    (∀ c, w.sector.m_block_cache = some c →
      BlockMap.find w.sector.m_blocks w.sector.m_block_cache_y = some (some c)) ∧
    (∀ y, CacheInv (w.sector.getBlockBuffered y).2) ∧
    (∀ y, CacheInv (createBlankBlockNoInsert blockpos_over_max_limit w y).2.sector) ∧
    (∀ y, CacheInv (createBlankBlock blockpos_over_max_limit w y).2.sector) ∧
    (∀ block, CacheInv (insertBlock w block).2.sector) ∧
    (∀ block, CacheInv (detachBlock w block).2.sector) ∧
    (∀ block, CacheInv (deleteBlock w block).2.sector) ∧
    (∀ used_count, CacheInv (deleteBlocks w used_count).2.sector) ∧
    (∀ dest, CacheInv (w.sector.getBlocks dest).2) := by
  have hi := hr.inv
  have hnone : ∀ s : MapSector, s.m_block_cache = none → CacheInv s := by
    intro s hs c hc
    rw [hs] at hc
    cases hc
  refine ⟨hi.cache, fun y => getBlockBuffered_cacheInv hi.cache y, ?_, ?_, ?_, ?_, ?_, ?_,
    fun _ => hi.cache⟩
  · intro y
    cases hg : (w.sector.getBlockBuffered y).1 with
    | some c =>
      rw [createBlankBlockNoInsert_assert _ w y (by simp [hg])]
      exact getBlockBuffered_cacheInv hi.cache y
    | none =>
      cases hl : blockpos_over_max_limit ⟨0, y, 0⟩ with
      | true =>
        rw [createBlankBlockNoInsert_limit _ w y hg hl]
        exact hnone _ rfl
      | false =>
        rw [createBlankBlockNoInsert_ok _ w y hg hl]
        exact hnone _ rfl
  · intro y
    cases hg : (w.sector.getBlockBuffered y).1 with
    | some c =>
      rw [createBlankBlock_assert _ w y (by simp [hg])]
      exact getBlockBuffered_cacheInv hi.cache y
    | none =>
      cases hl : blockpos_over_max_limit ⟨0, y, 0⟩ with
      | true =>
        rw [createBlankBlock_limit _ w y hg hl]
        exact hnone _ rfl
      | false =>
        rw [createBlankBlock_ok _ w y hg hl (hi.find_none_of_getBlockBuffered hg)]
        exact hnone _ rfl
  · intro block
    cases hb : w.heap.deref block with
    | none =>
      simp only [insertBlock, hb]
      exact hi.cache
    | some b =>
      cases hg : (w.sector.getBlockBuffered b.getPos.Y).1 with
      | some c =>
        rw [insertBlock_exists w block b hb (by simp [hg])]
        exact getBlockBuffered_cacheInv hi.cache _
      | none =>
        cases hp : vector2d.eq ⟨b.getPos.X, b.getPos.Z⟩ w.sector.m_pos with
        | false =>
          rw [insertBlock_assert w block b hb hg hp]
          exact hnone _ rfl
        | true =>
          rw [insertBlock_ok w block b hb hg (hi.find_none_of_getBlockBuffered hg) hp]
          exact hnone _ rfl
  · intro block
    unfold detachBlock
    split
    · exact hi.cache
    · simp only
      split
      · exact hnone _ rfl
      · split
        · exact hnone _ rfl
        · exact hnone _ rfl
  · intro block
    unfold deleteBlock
    have hd : CacheInv (detachBlock w block).2.sector := by
      unfold detachBlock
      split
      · exact hi.cache
      · simp only
        split
        · exact hnone _ rfl
        · split
          · exact hnone _ rfl
          · exact hnone _ rfl
    split <;> rename_i heq <;> rw [heq] at hd <;> exact hd
  · intro used_count
    unfold deleteBlocks
    simp only
    cases deleteBlocksLoop w.heap w.sector.m_blocks 0 with
    | none => exact hnone _ rfl
    | some r => exact hnone _ rfl

/-- C2, at the example sector after `createBlankBlock(0)` and a buffered lookup
of 0, where the cache slot holds the block at address 0. -/
theorem C2_cache_invariant_witness :
    (exampleWorld1.sector.getBlockBuffered 0).2.m_block_cache = some 0 ∧
    BlockMap.find (exampleWorld1.sector.getBlockBuffered 0).2.m_blocks
      (exampleWorld1.sector.getBlockBuffered 0).2.m_block_cache_y = some (some 0) :=
  ⟨by decide,
   (C2_cache_invariant exampleLimit
      { exampleWorld1 with sector := (exampleWorld1.sector.getBlockBuffered 0).2 }
      (Reachable.step_getBlockBuffered 0
        (Reachable.step_createBlankBlock 0 (Reachable.construct [] 0 ⟨3, -2⟩ 0)
          (by decide)))).1 0 (by decide)⟩

/-- C3 (column invariant): in every state reachable from construction through
calls that do not fail an assertion, every entry `(k, b)` of `m_blocks` owns a
live block with `b.getPos() == (m_pos.X, k, m_pos.Y)`. -/
theorem C3_column_invariant (blockpos_over_max_limit : v3s16 → Bool)
    (w : World) (k : s16) (u : unique_ptr)
    (hr : Reachable blockpos_over_max_limit w) (hm : (k, u) ∈ w.sector.m_blocks) :
    ∃ p b, u = some p ∧ w.heap.deref p = some b ∧
      b.getPos = ⟨w.sector.m_pos.X, k, w.sector.m_pos.Y⟩ :=
  hr.inv.column k u hm

/-- C3, at the entry of the example sector after `createBlankBlock(0)`. -/
theorem C3_column_invariant_witness :
    ∃ p b, some 0 = some p ∧ exampleWorld1.heap.deref p = some b ∧
      b.getPos = ⟨exampleWorld1.sector.m_pos.X, 0, exampleWorld1.sector.m_pos.Y⟩ :=
  C3_column_invariant exampleLimit exampleWorld1 0 (some 0)
    (Reachable.step_createBlankBlock 0 (Reachable.construct [] 0 ⟨3, -2⟩ 0) (by decide))
    (by decide)

/-- C4: in every reachable state, for every `y` that has no entry in `m_blocks`
and is not over the generation limit, `createBlankBlock(y)` returns a new block;
afterwards `getBlockBuffered(y)` returns that block and `m_blocks` is the old
mapping extended with `y -> block`.  The same holds when `getBlockBuffered(y)`
ran first and returned null. -/
theorem C4_createBlankBlock_then_getBlockBuffered
    (blockpos_over_max_limit : v3s16 → Bool) (w : World) (y : s16)
    (hr : Reachable blockpos_over_max_limit w)
    (hfree : BlockMap.find w.sector.m_blocks y = none)
    (hlim : blockpos_over_max_limit ⟨0, y, 0⟩ = false) :
    (∃ block,
      w.heap.deref block = none ∧
      (createBlankBlock blockpos_over_max_limit w y).1 = .ok block ∧
      ((createBlankBlock blockpos_over_max_limit w y).2.sector.getBlockBuffered y).1
        = some block ∧
      (createBlankBlock blockpos_over_max_limit w y).2.sector.m_blocks
        = (y, some block) :: w.sector.m_blocks) ∧
    (w.sector.getBlockBuffered y).1 = none ∧
    (∃ block,
      (createBlankBlock blockpos_over_max_limit
        { w with sector := (w.sector.getBlockBuffered y).2 } y).1 = .ok block ∧
      ((createBlankBlock blockpos_over_max_limit
        { w with sector := (w.sector.getBlockBuffered y).2 } y).2.sector.getBlockBuffered
          y).1 = some block ∧
      (createBlankBlock blockpos_over_max_limit
        { w with sector := (w.sector.getBlockBuffered y).2 } y).2.sector.m_blocks
        = (y, some block) :: w.sector.m_blocks) := by
  have main : ∀ v : World, Inv v → BlockMap.find v.sector.m_blocks y = none →
      (createBlankBlock blockpos_over_max_limit v y).1 = .ok v.heap.length ∧
      ((createBlankBlock blockpos_over_max_limit v y).2.sector.getBlockBuffered y).1
        = some v.heap.length ∧
      (createBlankBlock blockpos_over_max_limit v y).2.sector.m_blocks
        = (y, some v.heap.length) :: v.sector.m_blocks := by
    intro v hv hf
    rw [createBlankBlock_ok _ v y (hv.getBlockBuffered_none_of_find hf) hlim hf]
    refine ⟨rfl, ?_, rfl⟩
    simp [MapSector.getBlockBuffered, MapSector.lookup, BlockMap.find]
  have hi := hr.inv
  refine ⟨⟨w.heap.length, ?_, main w hi hfree⟩, hi.getBlockBuffered_none_of_find hfree,
    ⟨w.heap.length, ?_⟩⟩
  · unfold Heap.deref
    exact List.getD_eq_default _ _ (Nat.le_refl _)
  · have h2 := main { w with sector := (w.sector.getBlockBuffered y).2 }
      (hi.step_getBlockBuffered y) (by simpa [getBlockBuffered_blocks] using hfree)
    simpa [getBlockBuffered_blocks] using h2

/-- C4, at the new example sector and `y = 0`. -/
theorem C4_createBlankBlock_then_getBlockBuffered_witness :
    (∃ block,
      exampleWorld.heap.deref block = none ∧
      (createBlankBlock exampleLimit exampleWorld 0).1 = .ok block ∧
      ((createBlankBlock exampleLimit exampleWorld 0).2.sector.getBlockBuffered 0).1
        = some block ∧
      (createBlankBlock exampleLimit exampleWorld 0).2.sector.m_blocks
        = (0, some block) :: exampleWorld.sector.m_blocks) :=
  (C4_createBlankBlock_then_getBlockBuffered exampleLimit exampleWorld 0
    (Reachable.construct [] 0 ⟨3, -2⟩ 0) (by decide) (by decide)).1

/-- C5: whenever `createBlankBlockNoInsert(y)` returns a block (which it only
does for an unoccupied `y`), `m_blocks` is the same as before the call, and a
`getBlockBuffered(y)` issued right afterwards returns null. -/
theorem C5_createBlankBlockNoInsert_does_not_insert
    (blockpos_over_max_limit : v3s16 → Bool) (w : World) (y : s16) (block : Ptr)
    (hok : (createBlankBlockNoInsert blockpos_over_max_limit w y).1 = .ok block) :
    (createBlankBlockNoInsert blockpos_over_max_limit w y).2.sector.m_blocks
      = w.sector.m_blocks ∧
    ((createBlankBlockNoInsert blockpos_over_max_limit w y).2.sector.getBlockBuffered y).1
      = none := by
  cases hg : (w.sector.getBlockBuffered y).1 with
  | some c =>
    rw [createBlankBlockNoInsert_assert _ w y (by simp [hg])] at hok
    cases hok
  | none =>
    cases hl : blockpos_over_max_limit ⟨0, y, 0⟩ with
    | true =>
      rw [createBlankBlockNoInsert_limit _ w y hg hl] at hok
      cases hok
    | false =>
      rw [createBlankBlockNoInsert_ok _ w y hg hl]
      refine ⟨rfl, ?_⟩
      have hlook := (getBlockBuffered_none hg).1
      simpa [MapSector.getBlockBuffered, MapSector.lookup] using hlook

/-- C5, at the new example sector and `y = 0`. -/
theorem C5_createBlankBlockNoInsert_does_not_insert_witness :
    (createBlankBlockNoInsert exampleLimit exampleWorld 0).2.sector.m_blocks
      = exampleWorld.sector.m_blocks ∧
    ((createBlankBlockNoInsert exampleLimit exampleWorld 0).2.sector.getBlockBuffered 0).1
      = none :=
  C5_createBlankBlockNoInsert_does_not_insert exampleLimit exampleWorld 0 0 (by decide)

/-- C6: in every reachable state and for every unoccupied `y`,
`createBlankBlockNoInsert(y)` throws `InvalidPositionException` exactly when the
limit predicate reports `(0, y, 0)` as over the limit, a condition in which the
sector position does not occur; when it throws, `m_blocks` and the number of
contained blocks are as before. -/
theorem C6_createBlankBlockNoInsert_over_limit
    (blockpos_over_max_limit : v3s16 → Bool) (w : World) (y : s16)
    (hr : Reachable blockpos_over_max_limit w)
    (hfree : BlockMap.find w.sector.m_blocks y = none) :
    ((createBlankBlockNoInsert blockpos_over_max_limit w y).1 = .InvalidPositionException
      ↔ blockpos_over_max_limit ⟨0, y, 0⟩ = true) ∧
    ((createBlankBlockNoInsert blockpos_over_max_limit w y).1 = .InvalidPositionException →
      (createBlankBlockNoInsert blockpos_over_max_limit w y).2.sector.m_blocks
        = w.sector.m_blocks ∧
      (createBlankBlockNoInsert blockpos_over_max_limit w y).2.sector.m_blocks.length
        = w.sector.m_blocks.length ∧
      (createBlankBlockNoInsert blockpos_over_max_limit w y).2.heap = w.heap) := by
  have hg := hr.inv.getBlockBuffered_none_of_find hfree
  cases hl : blockpos_over_max_limit ⟨0, y, 0⟩ with
  | true =>
    rw [createBlankBlockNoInsert_limit _ w y hg hl]
    simp
  | false =>
    rw [createBlankBlockNoInsert_ok _ w y hg hl]
    simp

/-- C6, at the new example sector and `y = 2000`, which is over the limit. -/
theorem C6_createBlankBlockNoInsert_over_limit_witness :
    (createBlankBlockNoInsert exampleLimit exampleWorld 2000).1
      = .InvalidPositionException :=
  (C6_createBlankBlockNoInsert_over_limit exampleLimit exampleWorld 2000
    (Reachable.construct [] 0 ⟨3, -2⟩ 0) (by decide)).1.mpr (by decide)

/-- C7: the block that `createBlankBlockNoInsert(y)` returns, and the block that
`createBlankBlock(y)` returns, has position `(m_pos.X, y, m_pos.Y)`: the first
sector coordinate is the block's X, the second is the block's Z, and `y` is the
block's Y. -/
theorem C7_created_block_position
    (blockpos_over_max_limit : v3s16 → Bool) (w : World) (y : s16) (block : Ptr) :
    ((createBlankBlockNoInsert blockpos_over_max_limit w y).1 = .ok block →
      ∃ b, (createBlankBlockNoInsert blockpos_over_max_limit w y).2.heap.deref block
          = some b ∧
        b.getPos.X = w.sector.m_pos.X ∧ b.getPos.Y = y ∧ b.getPos.Z = w.sector.m_pos.Y) ∧
    ((createBlankBlock blockpos_over_max_limit w y).1 = .ok block →
      ∃ b, (createBlankBlock blockpos_over_max_limit w y).2.heap.deref block = some b ∧
        b.getPos.X = w.sector.m_pos.X ∧ b.getPos.Y = y ∧ b.getPos.Z = w.sector.m_pos.Y) := by
  cases hg : (w.sector.getBlockBuffered y).1 with
  | some c =>
    rw [createBlankBlockNoInsert_assert _ w y (by simp [hg]),
      createBlankBlock_assert _ w y (by simp [hg])]
    exact ⟨fun h => (by cases h), fun h => (by cases h)⟩
  | none =>
    cases hl : blockpos_over_max_limit ⟨0, y, 0⟩ with
    | true =>
      rw [createBlankBlockNoInsert_limit _ w y hg hl, createBlankBlock_limit _ w y hg hl]
      exact ⟨fun h => (by cases h), fun h => (by cases h)⟩
    | false =>
      obtain ⟨h1, h2⟩ := createBlankBlock_ok_heap blockpos_over_max_limit w y hg hl
      rw [createBlankBlockNoInsert_ok _ w y hg hl, h2]
      constructor
      · intro h
        cases h
        exact ⟨_, Heap.deref_append_length _ _, ⟨rfl, rfl, rfl⟩⟩
      · intro h
        rw [h1] at h
        cases h
        exact ⟨_, Heap.deref_append_length _ _, ⟨rfl, rfl, rfl⟩⟩

/-- C7, at the new example sector at `(3, -2)` and `y = 5`. -/
theorem C7_created_block_position_witness :
    (∃ b, (createBlankBlockNoInsert exampleLimit exampleWorld 5).2.heap.deref 0 = some b ∧
        b.getPos.X = exampleWorld.sector.m_pos.X ∧ b.getPos.Y = 5 ∧
        b.getPos.Z = exampleWorld.sector.m_pos.Y) ∧
    (∃ b, (createBlankBlock exampleLimit exampleWorld 5).2.heap.deref 0 = some b ∧
        b.getPos.X = exampleWorld.sector.m_pos.X ∧ b.getPos.Y = 5 ∧
        b.getPos.Z = exampleWorld.sector.m_pos.Y) :=
  ⟨(C7_created_block_position exampleLimit exampleWorld 5 0).1 (by decide),
   (C7_created_block_position exampleLimit exampleWorld 5 0).2 (by decide)⟩

/-- C8: in every reachable state, for every block whose vertical coordinate is
already occupied in the sector, `insertBlock` throws `AlreadyExistsException`
and `m_blocks` is unchanged: the block stored before is still stored at that
coordinate, it is what `getBlockBuffered` returns there, and the number of
contained blocks is the same. -/
theorem C8_insertBlock_occupied (blockpos_over_max_limit : v3s16 → Bool)
    (w : World) (block : Ptr) (b : MapBlock) (stored : Ptr)
    (hr : Reachable blockpos_over_max_limit w)
    (hb : w.heap.deref block = some b)
    (hocc : BlockMap.find w.sector.m_blocks b.getPos.Y = some (some stored)) :
    (insertBlock w block).1 = .AlreadyExistsException ∧
    (insertBlock w block).2.sector.m_blocks = w.sector.m_blocks ∧
    BlockMap.find (insertBlock w block).2.sector.m_blocks b.getPos.Y
      = some (some stored) ∧
    ((insertBlock w block).2.sector.getBlockBuffered b.getPos.Y).1 = some stored ∧
    (insertBlock w block).2.sector.m_blocks.length = w.sector.m_blocks.length := by
  have hi := hr.inv
  have hlook : w.sector.lookup b.getPos.Y = some stored := by
    simp [MapSector.lookup, hocc]
  have hg : (w.sector.getBlockBuffered b.getPos.Y).1 = some stored := by
    rw [getBlockBuffered_eq_lookup hi.cache, hlook]
  rw [insertBlock_exists w block b hb (by simp [hg])]
  have hm := getBlockBuffered_blocks w.sector b.getPos.Y
  refine ⟨rfl, hm, ?_, ?_, ?_⟩
  · show BlockMap.find (w.sector.getBlockBuffered b.getPos.Y).2.m_blocks _ = _
    rw [hm, hocc]
  · show (MapSector.getBlockBuffered (w.sector.getBlockBuffered b.getPos.Y).2 _).1 = _
    rw [getBlockBuffered_eq_lookup (getBlockBuffered_cacheInv hi.cache _)]
    simp [MapSector.lookup, hm, hocc]
  · show (w.sector.getBlockBuffered b.getPos.Y).2.m_blocks.length = _
    rw [hm]

/-- C8, at the example sector that stores the block at address 1 at vertical
coordinate 0, for the block at address 0 whose position is `(3, 0, -2)`. -/
theorem C8_insertBlock_occupied_witness :
    (insertBlock exampleWorld3 0).1 = .AlreadyExistsException ∧
    (insertBlock exampleWorld3 0).2.sector.m_blocks = exampleWorld3.sector.m_blocks ∧
    BlockMap.find (insertBlock exampleWorld3 0).2.sector.m_blocks
      (MapBlock.new ⟨3, 0, -2⟩ 7).getPos.Y = some (some 1) ∧
    ((insertBlock exampleWorld3 0).2.sector.getBlockBuffered
      (MapBlock.new ⟨3, 0, -2⟩ 7).getPos.Y).1 = some 1 ∧
    (insertBlock exampleWorld3 0).2.sector.m_blocks.length
      = exampleWorld3.sector.m_blocks.length :=
  C8_insertBlock_occupied exampleLimit exampleWorld3 0 (MapBlock.new ⟨3, 0, -2⟩ 7) 1
    (Reachable.step_createBlankBlock 0
      (Reachable.construct [some (MapBlock.new ⟨3, 0, -2⟩ 7)] 0 ⟨3, -2⟩ 0) (by decide))
    (by decide) (by decide)

/-- C9 as stated fails: on the new example sector `createBlankBlock(0)` returns
a block, and the second `createBlankBlock(0)` does not throw
`AlreadyExistsException`, it fails the assertion. -/
theorem C9_second_createBlankBlock_counterexample :
    (createBlankBlock exampleLimit exampleWorld 0).1 = .ok 0 ∧
    (createBlankBlock exampleLimit (createBlankBlock exampleLimit exampleWorld 0).2 0).1
      = .assertion_failed ∧
    (createBlankBlock exampleLimit (createBlankBlock exampleLimit exampleWorld 0).2 0).1
      ≠ .AlreadyExistsException := by
  decide

/-- C9, amended: in every reachable state, after `createBlankBlock(y)` has
returned a block, a second `createBlankBlock(y)` fails the pre-condition
assertion of `createBlankBlockNoInsert`; at that point the heap and `m_blocks`
are as the first call left them, so the first block is still the one stored at
`y` and the one `getBlockBuffered(y)` yields. -/
theorem C9_second_createBlankBlock_fails_assertion
    (blockpos_over_max_limit : v3s16 → Bool) (w : World) (y : s16) (block : Ptr)
    (hr : Reachable blockpos_over_max_limit w)
    (hok : (createBlankBlock blockpos_over_max_limit w y).1 = .ok block) :
    (createBlankBlock blockpos_over_max_limit
      (createBlankBlock blockpos_over_max_limit w y).2 y).1 = .assertion_failed ∧
    (createBlankBlock blockpos_over_max_limit
      (createBlankBlock blockpos_over_max_limit w y).2 y).2.heap
      = (createBlankBlock blockpos_over_max_limit w y).2.heap ∧
    (createBlankBlock blockpos_over_max_limit
      (createBlankBlock blockpos_over_max_limit w y).2 y).2.sector.m_blocks
      = (createBlankBlock blockpos_over_max_limit w y).2.sector.m_blocks ∧
    BlockMap.find (createBlankBlock blockpos_over_max_limit
      (createBlankBlock blockpos_over_max_limit w y).2 y).2.sector.m_blocks y
      = some (some block) ∧
    ((createBlankBlock blockpos_over_max_limit
      (createBlankBlock blockpos_over_max_limit w y).2 y).2.sector.getBlockBuffered y).1
      = some block := by
  have hi := hr.inv
  cases hg : (w.sector.getBlockBuffered y).1 with
  | some c =>
    rw [createBlankBlock_assert _ w y (by simp [hg])] at hok
    cases hok
  | none =>
    cases hl : blockpos_over_max_limit ⟨0, y, 0⟩ with
    | true =>
      rw [createBlankBlock_limit _ w y hg hl] at hok
      cases hok
    | false =>
      have hf := hi.find_none_of_getBlockBuffered hg
      rw [createBlankBlock_ok _ w y hg hl hf] at hok ⊢
      cases hok
      have hg2 : (MapSector.getBlockBuffered
          { w.sector with
            m_block_cache_y := y, m_block_cache := none,
            m_blocks := (y, some w.heap.length) :: w.sector.m_blocks } y)
          = (some w.heap.length,
            { w.sector with
              m_block_cache_y := y, m_block_cache := some w.heap.length,
              m_blocks := (y, some w.heap.length) :: w.sector.m_blocks }) := by
        simp [MapSector.getBlockBuffered, MapSector.lookup, BlockMap.find]
      rw [createBlankBlock_assert _ _ y (by rw [hg2]; rfl), hg2]
      refine ⟨rfl, rfl, rfl, ?_, ?_⟩
      · simp [BlockMap.find]
      · simp [MapSector.getBlockBuffered]

/-- C9 amended, at the new example sector and `y = 0`. -/
theorem C9_second_createBlankBlock_fails_assertion_witness :
    (createBlankBlock exampleLimit (createBlankBlock exampleLimit exampleWorld 0).2 0).1
      = .assertion_failed ∧
    BlockMap.find (createBlankBlock exampleLimit
      (createBlankBlock exampleLimit exampleWorld 0).2 0).2.sector.m_blocks 0
      = some (some 0) :=
  ⟨(C9_second_createBlankBlock_fails_assertion exampleLimit exampleWorld 0 0
      (Reachable.construct [] 0 ⟨3, -2⟩ 0) (by decide)).1,
   (C9_second_createBlankBlock_fails_assertion exampleLimit exampleWorld 0 0
      (Reachable.construct [] 0 ⟨3, -2⟩ 0) (by decide)).2.2.2.1⟩

/-- C10: in every reachable state, for every live block whose horizontal
coordinates equal the sector position and whose vertical coordinate is
unoccupied, `insertBlock` returns normally; afterwards `m_blocks` is the old
mapping plus the single entry `by -> block` (one more contained block, the
entries at all other keys as before), and `getBlockBuffered(by)` returns the
block.  The same holds when `getBlockBuffered(by)` ran first and cached the
miss. -/
theorem C10_insertBlock_unoccupied (blockpos_over_max_limit : v3s16 → Bool)
    (w : World) (block : Ptr) (b : MapBlock)
    (hr : Reachable blockpos_over_max_limit w)
    (hb : w.heap.deref block = some b)
    (hcol : b.getPos.X = w.sector.m_pos.X ∧ b.getPos.Z = w.sector.m_pos.Y)
    (hfree : BlockMap.find w.sector.m_blocks b.getPos.Y = none) :
    ((insertBlock w block).1 = .ok () ∧
      (insertBlock w block).2.sector.m_blocks
        = (b.getPos.Y, some block) :: w.sector.m_blocks ∧
      (insertBlock w block).2.sector.m_blocks.length = w.sector.m_blocks.length + 1 ∧
      (∀ k, k ≠ b.getPos.Y →
        BlockMap.find (insertBlock w block).2.sector.m_blocks k
          = BlockMap.find w.sector.m_blocks k) ∧
      BlockMap.find (insertBlock w block).2.sector.m_blocks b.getPos.Y
        = some (some block) ∧
      ((insertBlock w block).2.sector.getBlockBuffered b.getPos.Y).1 = some block) ∧
    (w.sector.getBlockBuffered b.getPos.Y).1 = none ∧
    ((insertBlock { w with sector := (w.sector.getBlockBuffered b.getPos.Y).2 } block).1
        = .ok () ∧
      (insertBlock { w with sector := (w.sector.getBlockBuffered b.getPos.Y).2 }
        block).2.sector.m_blocks = (b.getPos.Y, some block) :: w.sector.m_blocks ∧
      ((insertBlock { w with sector := (w.sector.getBlockBuffered b.getPos.Y).2 }
        block).2.sector.getBlockBuffered b.getPos.Y).1 = some block) := by
  have main : ∀ v : World, Inv v → v.heap.deref block = some b →
      v.sector.m_pos = w.sector.m_pos →
      BlockMap.find v.sector.m_blocks b.getPos.Y = none →
      (insertBlock v block).1 = .ok () ∧
      (insertBlock v block).2.sector.m_blocks
        = (b.getPos.Y, some block) :: v.sector.m_blocks ∧
      ((insertBlock v block).2.sector.getBlockBuffered b.getPos.Y).1 = some block := by
    intro v hv hvb hvp hf
    have hp : vector2d.eq ⟨b.getPos.X, b.getPos.Z⟩ v.sector.m_pos = true := by
      simp [vector2d.eq, hvp, hcol.1, hcol.2]
    rw [insertBlock_ok v block b hvb (hv.getBlockBuffered_none_of_find hf) hf hp]
    refine ⟨rfl, rfl, ?_⟩
    simp [MapSector.getBlockBuffered, MapSector.lookup, BlockMap.find]
  have hi := hr.inv
  obtain ⟨h1, h2, h3⟩ := main w hi hb rfl hfree
  refine ⟨⟨h1, h2, ?_, ?_, ?_, h3⟩, hi.getBlockBuffered_none_of_find hfree, ?_⟩
  · rw [h2]
    rfl
  · intro k hk
    rw [h2]
    have : ¬ b.getPos.Y = k := fun h => hk h.symm
    simp [BlockMap.find, this]
  · rw [h2]
    simp [BlockMap.find]
  · have h4 := main { w with sector := (w.sector.getBlockBuffered b.getPos.Y).2 }
      (hi.step_getBlockBuffered _) hb (getBlockBuffered_pos _ _)
      (by simpa [getBlockBuffered_blocks] using hfree)
    simpa [getBlockBuffered_blocks] using h4

/-- C10, at the new example sector at `(3, -2)` and the block at address 0, whose
position is `(3, 0, -2)`. -/
theorem C10_insertBlock_unoccupied_witness :
    (insertBlock exampleWorld2 0).1 = .ok () ∧
    (insertBlock exampleWorld2 0).2.sector.m_blocks
      = ((MapBlock.new ⟨3, 0, -2⟩ 7).getPos.Y, some 0) :: exampleWorld2.sector.m_blocks ∧
    ((insertBlock exampleWorld2 0).2.sector.getBlockBuffered
      (MapBlock.new ⟨3, 0, -2⟩ 7).getPos.Y).1 = some 0 :=
  ⟨(C10_insertBlock_unoccupied exampleLimit exampleWorld2 0 (MapBlock.new ⟨3, 0, -2⟩ 7)
      (Reachable.construct [some (MapBlock.new ⟨3, 0, -2⟩ 7)] 0 ⟨3, -2⟩ 0)
      (by decide) (by decide) (by decide)).1.1,
   (C10_insertBlock_unoccupied exampleLimit exampleWorld2 0 (MapBlock.new ⟨3, 0, -2⟩ 7)
      (Reachable.construct [some (MapBlock.new ⟨3, 0, -2⟩ 7)] 0 ⟨3, -2⟩ 0)
      (by decide) (by decide) (by decide)).1.2.1,
   (C10_insertBlock_unoccupied exampleLimit exampleWorld2 0 (MapBlock.new ⟨3, 0, -2⟩ 7)
      (Reachable.construct [some (MapBlock.new ⟨3, 0, -2⟩ 7)] 0 ⟨3, -2⟩ 0)
      (by decide) (by decide) (by decide)).1.2.2.2.2.2⟩

/-! ## Facts for detachment, bulk deletion and enumeration -/

theorem BlockMap.find_erase_self {m : BlockMap} (hn : KeysNodup m) (y : s16) :
    BlockMap.find (BlockMap.erase m y) y = none := by
  cases hf : BlockMap.find (BlockMap.erase m y) y with
  | none => rfl
  | some u => exact absurd (BlockMap.find_mem hf) (BlockMap.not_mem_erase hn y u)

theorem Inv.key_of_owned {w : World} (hi : Inv w) {k : s16} {p : Ptr} {b : MapBlock}
    (hm : (k, some p) ∈ w.sector.m_blocks) (hb : w.heap.deref p = some b) :
    b.getPos.Y = k := by
  obtain ⟨q, c, hu, hd, hpos⟩ := hi.column k (some p) hm
  cases hu
  rw [hb] at hd
  cases hd
  rw [hpos]

theorem Inv.pointers_nodup {w : World} (hi : Inv w) :
    (w.sector.m_blocks.map (fun block => block.2)).Nodup := by
  refine List.Nodup.map_on ?_ (List.Nodup.of_map _ hi.keys)
  intro e1 h1 e2 h2 heq
  obtain ⟨k1, u1⟩ := e1
  obtain ⟨k2, u2⟩ := e2
  simp only at heq
  subst heq
  obtain ⟨p, b, hu, hd, -⟩ := hi.column k1 u1 h1
  subst hu
  have e1 := hi.key_of_owned h1 hd
  have e2 := hi.key_of_owned h2 hd
  rw [← e1, ← e2]

theorem Inv.entries_live {w : World} (hi : Inv w) :
    ∀ e ∈ w.sector.m_blocks, ∃ p b, e.2 = some p ∧ w.heap.deref p = some b := by
  intro e he
  obtain ⟨k, u⟩ := e
  obtain ⟨p, b, hu, hd, -⟩ := hi.column k u he
  exact ⟨p, b, hu, hd⟩

theorem countUsed_destroy (h : Heap) (p : Ptr) (m : BlockMap)
    (hp : some p ∉ m.map (fun block => block.2)) :
    countUsed (h.destroy p) m = countUsed h m := by
  unfold countUsed
  apply List.countP_congr
  intro e he
  obtain ⟨k, u⟩ := e
  cases u with
  | none => simp [Heap.inUse]
  | some q =>
    have hne : q ≠ p := by
      intro hqp
      subst hqp
      exact hp (List.mem_map.mpr ⟨(k, some q), he, rfl⟩)
    simp only [Heap.inUse, Heap.destroy, Heap.deref_set_ne h none hne]

theorem deleteBlocksLoop_spec (m : BlockMap) :
    ∀ (h : Heap) (u : size_t),
      (∀ e ∈ m, ∃ p b, e.2 = some p ∧ h.deref p = some b) →
      (m.map (fun block => block.2)).Nodup →
      ∃ h2 v, deleteBlocksLoop h m u = some (h2, v) ∧
        v % size_t_mod = (u + countUsed h m) % size_t_mod ∧
        (u < size_t_mod → v < size_t_mod) := by
  induction m with
  | nil =>
    intro h u _ _
    exact ⟨h, u, rfl, by simp [countUsed], fun hu => hu⟩
  | cons e rest ih =>
    intro h u hlive hnd
    obtain ⟨k, u0⟩ := e
    obtain ⟨p, b, hu0, hd⟩ := hlive (k, u0) (List.mem_cons_self _ _)
    simp only at hu0
    subst hu0
    simp only [List.map_cons, List.nodup_cons] at hnd
    have hlive2 : ∀ e ∈ rest, ∃ q c, e.2 = some q ∧ (h.destroy p).deref q = some c := by
      intro e he
      obtain ⟨q, c, hq, hc⟩ := hlive e (List.mem_cons_of_mem _ he)
      have hne : q ≠ p := by
        intro hqp
        subst hqp
        exact hnd.1 (List.mem_map.mpr ⟨e, he, hq⟩)
      refine ⟨q, c, hq, ?_⟩
      show Heap.deref (List.set h p none) q = some c
      rw [Heap.deref_set_ne h none hne]
      exact hc
    have hmod : 0 < size_t_mod := by decide
    obtain ⟨h2, v, hloop, hv, hlt⟩ := ih (h.destroy p)
      (if b.refGet > 0 then (u + 1) % size_t_mod else u) hlive2 hnd.2
    refine ⟨h2, v, ?_, ?_, ?_⟩
    · simp only [deleteBlocksLoop, hd]
      exact hloop
    · rw [hv, countUsed_destroy h p rest hnd.1]
      have hc : countUsed h ((k, some p) :: rest)
          = countUsed h rest + if b.refGet > 0 then 1 else 0 := by
        simp [countUsed, List.countP_cons, Heap.inUse, hd]
      rw [hc]
      by_cases hpos : b.refGet > 0
      · simp only [hpos, if_true]
        rw [Nat.add_mod, Nat.mod_mod, ← Nat.add_mod]
        congr 1
        omega
      · simp only [hpos, if_false]
        rfl
    · intro hu
      apply hlt
      by_cases hpos : b.refGet > 0
      · simp only [hpos, if_true]
        exact Nat.mod_lt _ hmod
      · simp only [hpos, if_false]
        exact hu

/-- C11: in every reachable state, for every live block whose horizontal
coordinates differ from the sector position and whose vertical coordinate is
unoccupied, `insertBlock` fails the assertion `p2d == m_pos`; the heap and
`m_blocks` are as before the call and no entry holds the block. -/
theorem C11_insertBlock_wrong_column (blockpos_over_max_limit : v3s16 → Bool)
    (w : World) (block : Ptr) (b : MapBlock)
    (hr : Reachable blockpos_over_max_limit w)
    (hb : w.heap.deref block = some b)
    (hcol : b.getPos.X ≠ w.sector.m_pos.X ∨ b.getPos.Z ≠ w.sector.m_pos.Y)
    (hfree : BlockMap.find w.sector.m_blocks b.getPos.Y = none) :
    (insertBlock w block).1 = .assertion_failed ∧
    (insertBlock w block).2.heap = w.heap ∧
    (insertBlock w block).2.sector.m_blocks = w.sector.m_blocks ∧
    (∀ k, (k, some block) ∉ (insertBlock w block).2.sector.m_blocks) := by
  have hi := hr.inv
  have hp : vector2d.eq ⟨b.getPos.X, b.getPos.Z⟩ w.sector.m_pos = false := by
    cases hq : vector2d.eq ⟨b.getPos.X, b.getPos.Z⟩ w.sector.m_pos with
    | false => rfl
    | true =>
      simp only [vector2d.eq, Bool.and_eq_true, beq_iff_eq] at hq
      rcases hcol with hx | hz
      · exact absurd hq.1 hx
      · exact absurd hq.2 hz
  rw [insertBlock_assert w block b hb (hi.getBlockBuffered_none_of_find hfree) hp]
  refine ⟨rfl, rfl, rfl, ?_⟩
  intro k hm
  have hk := hi.key_of_owned hm hb
  rw [hk] at hfree
  exact BlockMap.find_none hfree _ hm

/-- C11, at the new example sector at `(3, -2)` and a block constructed at
`(4, 0, -2)`. -/
theorem C11_insertBlock_wrong_column_witness :
    (insertBlock ⟨[some (MapBlock.new ⟨4, 0, -2⟩ 7)], MapSector.new 0 ⟨3, -2⟩ 0⟩ 0).1
      = .assertion_failed :=
  (C11_insertBlock_wrong_column exampleLimit
    ⟨[some (MapBlock.new ⟨4, 0, -2⟩ 7)], MapSector.new 0 ⟨3, -2⟩ 0⟩ 0
    (MapBlock.new ⟨4, 0, -2⟩ 7)
    (Reachable.construct [some (MapBlock.new ⟨4, 0, -2⟩ 7)] 0 ⟨3, -2⟩ 0)
    (by decide) (Or.inl (by decide)) (by decide)).1

/-- C12: in every reachable state, for every block stored in the sector (at
key `k`, which is its vertical coordinate), `detachBlock` returns that same
block; afterwards its orphan flag is set, `getBlockBuffered(y)` returns it for
no `y`, `getBlockBuffered(k)` returns null, and the sector holds exactly one
block less. -/
theorem C12_detachBlock_stored (blockpos_over_max_limit : v3s16 → Bool)
    (w : World) (k : s16) (block : Ptr)
    (hr : Reachable blockpos_over_max_limit w)
    (hm : (k, some block) ∈ w.sector.m_blocks) :
    (∃ b, w.heap.deref block = some b ∧ b.getPos.Y = k) ∧
    (detachBlock w block).1 = .ok block ∧
    (∃ b, (detachBlock w block).2.heap.deref block = some b ∧ b.isOrphan = true) ∧
    (∀ y, ((detachBlock w block).2.sector.getBlockBuffered y).1 ≠ some block) ∧
    ((detachBlock w block).2.sector.getBlockBuffered k).1 = none ∧
    (detachBlock w block).2.sector.m_blocks.length + 1 = w.sector.m_blocks.length := by
  have hi := hr.inv
  obtain ⟨p, b, hu, hb, hpos⟩ := hi.column k (some block) hm
  cases hu
  have hk : b.getPos.Y = k := by rw [hpos]
  have hf : BlockMap.find w.sector.m_blocks b.getPos.Y = some (some block) := by
    rw [hk]
    exact BlockMap.find_of_mem hi.keys hm
  have hrec : (detachBlock w block).1.recoverable = true := by
    rw [detachBlock_ok w block b hb hf]
    rfl
  have hi2 := hi.step_detachBlock block hrec
  have hgb : ∀ y, ((detachBlock w block).2.sector.getBlockBuffered y).1
      = (detachBlock w block).2.sector.lookup y :=
    fun y => getBlockBuffered_eq_lookup hi2.cache y
  refine ⟨⟨b, hb, hk⟩, ?_, ?_, ?_, ?_, ?_⟩
  · rw [detachBlock_ok w block b hb hf]
  · rw [detachBlock_ok w block b hb hf]
    refine ⟨b.makeOrphan, ?_, rfl⟩
    exact Heap.deref_set_self _ hb
  · intro y hy
    rw [hgb y] at hy
    have hmem := (lookup_eq_some_iff hi2 y block).mp hy
    rw [detachBlock_ok w block b hb hf] at hmem
    exact hi.not_owns_after_erase hb y hmem
  · rw [hgb k, lookup_eq_none_iff hi2.column k, detachBlock_ok w block b hb hf, hk]
    exact BlockMap.find_erase_self hi.keys k
  · rw [detachBlock_ok w block b hb hf]
    exact BlockMap.length_erase hf

/-- C12, at the example sector that stores the block at address 0 at vertical
coordinate 0. -/
theorem C12_detachBlock_stored_witness :
    (detachBlock exampleWorld1 0).1 = .ok 0 ∧
    (∃ b, (detachBlock exampleWorld1 0).2.heap.deref 0 = some b ∧ b.isOrphan = true) ∧
    ((detachBlock exampleWorld1 0).2.sector.getBlockBuffered 0).1 = none :=
  ⟨(C12_detachBlock_stored exampleLimit exampleWorld1 0 0
      (Reachable.step_createBlankBlock 0 (Reachable.construct [] 0 ⟨3, -2⟩ 0) (by decide))
      (by decide)).2.1,
   (C12_detachBlock_stored exampleLimit exampleWorld1 0 0
      (Reachable.step_createBlankBlock 0 (Reachable.construct [] 0 ⟨3, -2⟩ 0) (by decide))
      (by decide)).2.2.1,
   (C12_detachBlock_stored exampleLimit exampleWorld1 0 0
      (Reachable.step_createBlankBlock 0 (Reachable.construct [] 0 ⟨3, -2⟩ 0) (by decide))
      (by decide)).2.2.2.2.1⟩

/-- C13: for every state and every live block, `detachBlock` returns normally
exactly when `m_blocks` has an entry at the block's vertical coordinate and that
entry is the block itself, and it then returns that block; when there is no
entry at that coordinate, or the entry there is another block, it fails an
assertion and the heap, hence the block's orphan flag, is as before. -/
theorem C13_detachBlock_normal_iff (w : World) (block : Ptr) (b : MapBlock)
    (hb : w.heap.deref block = some b) :
    ((∃ ret, (detachBlock w block).1 = .ok ret) ↔
      BlockMap.find w.sector.m_blocks b.getPos.Y = some (some block)) ∧
    (∀ ret, (detachBlock w block).1 = .ok ret → ret = block) ∧
    (BlockMap.find w.sector.m_blocks b.getPos.Y ≠ some (some block) →
      (detachBlock w block).1 = .assertion_failed ∧
      (detachBlock w block).2.heap = w.heap ∧
      (detachBlock w block).2.heap.deref block = some b) := by
  have hfail : BlockMap.find w.sector.m_blocks b.getPos.Y ≠ some (some block) →
      (detachBlock w block).1 = .assertion_failed ∧
      (detachBlock w block).2.heap = w.heap := by
    intro hne
    unfold detachBlock
    simp only [hb]
    cases hf : BlockMap.find w.sector.m_blocks b.getPos.Y with
    | none => exact ⟨rfl, rfl⟩
    | some ret =>
      have hret : ¬ ret = some block := by
        intro h
        rw [hf, h] at hne
        exact hne rfl
      simp only [hret, if_false]
      exact ⟨trivial, trivial⟩
  refine ⟨⟨?_, ?_⟩, ?_, ?_⟩
  · rintro ⟨ret, hret⟩
    by_contra hne
    rw [(hfail hne).1] at hret
    cases hret
  · intro hf
    exact ⟨block, by rw [detachBlock_ok w block b hb hf]⟩
  · intro ret hret
    by_cases hf : BlockMap.find w.sector.m_blocks b.getPos.Y = some (some block)
    · rw [detachBlock_ok w block b hb hf] at hret
      cases hret
      rfl
    · rw [(hfail hf).1] at hret
      cases hret
  · intro hne
    obtain ⟨h1, h2⟩ := hfail hne
    exact ⟨h1, h2, by rw [h2]; exact hb⟩

/-- C13, at the example sector that stores the block at address 1 at vertical
coordinate 0, for the block at address 0 with the same vertical coordinate,
which the sector does not store. -/
theorem C13_detachBlock_normal_iff_witness :
    (detachBlock exampleWorld3 0).1 = .assertion_failed ∧
    (detachBlock exampleWorld3 0).2.heap = exampleWorld3.heap ∧
    (detachBlock exampleWorld3 0).2.heap.deref 0 = some (MapBlock.new ⟨3, 0, -2⟩ 7) :=
  (C13_detachBlock_normal_iff exampleWorld3 0 (MapBlock.new ⟨3, 0, -2⟩ 7)
    (by decide)).2.2 (by decide)

/-- C14 (bulk delete accounting): in every reachable state, with `K` the number
of contained blocks that have `refGet() > 0`, `deleteBlocks(&counter)` called
with `counter == c` returns with `counter == c + K` in `size_t` arithmetic (the
sum modulo `size_t_mod`, which is `c + K` itself when that fits); afterwards
`m_blocks` is empty, the cache slot is null, and `getBlockBuffered(y)` returns
null for every `y`. -/
theorem C14_deleteBlocks_accounting (blockpos_over_max_limit : v3s16 → Bool)
    (w : World) (c : size_t) (hr : Reachable blockpos_over_max_limit w) :
    (deleteBlocks w (some c)).1
      = .ok (some ((c + countUsed w.heap w.sector.m_blocks) % size_t_mod)) ∧
    (c + countUsed w.heap w.sector.m_blocks < size_t_mod →
      (deleteBlocks w (some c)).1
        = .ok (some (c + countUsed w.heap w.sector.m_blocks))) ∧
    countUsed w.heap w.sector.m_blocks ≤ w.sector.m_blocks.length ∧
    (deleteBlocks w (some c)).2.sector.m_blocks = [] ∧
    (deleteBlocks w (some c)).2.sector.m_block_cache = none ∧
    (∀ y, ((deleteBlocks w (some c)).2.sector.getBlockBuffered y).1 = none) := by
  have hi := hr.inv
  obtain ⟨h2, v, hloop, hv, hlt⟩ := deleteBlocksLoop_spec w.sector.m_blocks w.heap 0
    hi.entries_live hi.pointers_nodup
  have hvlt : v < size_t_mod := hlt (by decide)
  have hvK : v = countUsed w.heap w.sector.m_blocks % size_t_mod := by
    rw [Nat.mod_eq_of_lt hvlt, Nat.zero_add] at hv
    exact hv
  have hres : deleteBlocks w (some c)
      = (.ok (some ((c + countUsed w.heap w.sector.m_blocks) % size_t_mod)),
          { heap := h2,
            sector := { w.sector with m_block_cache := none, m_blocks := [] } }) := by
    unfold deleteBlocks
    simp only [hloop, Option.map_some']
    rw [hvK, Nat.add_mod_mod]
  rw [hres]
  refine ⟨rfl, ?_, List.countP_le_length _, rfl, rfl, ?_⟩
  · intro hfit
    rw [Nat.mod_eq_of_lt hfit]
  · intro y
    simp [MapSector.getBlockBuffered, MapSector.lookup, BlockMap.find]

/-- C14, at the example sector that owns two blocks of which one is referenced,
with the counter at 10 before the call. -/
theorem C14_deleteBlocks_accounting_witness :
    countUsed exampleWorld5.heap exampleWorld5.sector.m_blocks = 1 ∧
    exampleWorld5.sector.m_blocks.length = 2 ∧
    (deleteBlocks exampleWorld5 (some 10)).1 = .ok (some 11) :=
  ⟨by decide, by decide,
   ((C14_deleteBlocks_accounting exampleLimit exampleWorld5 10
      (Reachable.step_createBlankBlock 5
        (Reachable.step_insertBlock 0
          (Reachable.construct
            [some { m_pos := ⟨3, 0, -2⟩, m_gamedef := 7, m_refcount := 2, m_orphan := false }]
            0 ⟨3, -2⟩ 0)
          (fun h => h.elim (fun _ hk => absurd hk (List.not_mem_nil _)))
          (by decide))
        (by decide))).2.1 (by decide)).trans (by decide)⟩

/-- C15 (enumeration completeness): in every reachable state, `getBlocks` on an
empty destination yields a sequence without duplicates, whose members are
exactly the blocks stored in `m_blocks` (no null pointer among them), and whose
length is the number of contained blocks. -/
theorem C15_getBlocks_complete (blockpos_over_max_limit : v3s16 → Bool)
    (w : World) (hr : Reachable blockpos_over_max_limit w) :
    (w.sector.getBlocks []).1.Nodup ∧
    (∀ p, some p ∈ (w.sector.getBlocks []).1 ↔ ∃ k, (k, some p) ∈ w.sector.m_blocks) ∧
    none ∉ (w.sector.getBlocks []).1 ∧
    (w.sector.getBlocks []).1.length = w.sector.m_blocks.length := by
  have hi := hr.inv
  have hres : (w.sector.getBlocks []).1 = w.sector.m_blocks.map (fun block => block.2) := by
    simp [MapSector.getBlocks]
  rw [hres]
  refine ⟨hi.pointers_nodup, ?_, ?_, List.length_map _ _⟩
  · intro p
    constructor
    · intro hp
      obtain ⟨e, he, hep⟩ := List.mem_map.mp hp
      obtain ⟨k, u⟩ := e
      simp only at hep
      subst hep
      exact ⟨k, he⟩
    · rintro ⟨k, hk⟩
      exact List.mem_map.mpr ⟨(k, some p), hk, rfl⟩
  · intro hn
    obtain ⟨e, he, hen⟩ := List.mem_map.mp hn
    obtain ⟨p, b, hp, -⟩ := hi.entries_live e he
    rw [hp] at hen
    cases hen

/-- C15, at the example sector that owns the blocks at addresses 0 and 1. -/
theorem C15_getBlocks_complete_witness :
    (exampleWorld5.sector.getBlocks []).1 = [some 1, some 0] ∧
    (exampleWorld5.sector.getBlocks []).1.Nodup :=
  ⟨by decide,
   (C15_getBlocks_complete exampleLimit exampleWorld5
      (Reachable.step_createBlankBlock 5
        (Reachable.step_insertBlock 0
          (Reachable.construct
            [some { m_pos := ⟨3, 0, -2⟩, m_gamedef := 7, m_refcount := 2, m_orphan := false }]
            0 ⟨3, -2⟩ 0)
          (fun h => h.elim (fun _ hk => absurd hk (List.not_mem_nil _)))
          (by decide))
        (by decide))).1⟩

/-- C16: `getBlocks` is a pure append: for every sector state and destination,
the old contents of the destination are a prefix of the new contents, the new
length is the old length plus the number of contained blocks, and the sector
(its mapping and its cache among the fields) is exactly as before the call. -/
theorem C16_getBlocks_appends (s : MapSector) (dest : MapBlockVect) :
    dest <+: (s.getBlocks dest).1 ∧
    (s.getBlocks dest).1 = dest ++ s.m_blocks.map (fun block => block.2) ∧
    (s.getBlocks dest).1.length = dest.length + s.m_blocks.length ∧
    (s.getBlocks dest).2 = s ∧
    (s.getBlocks dest).2.m_blocks = s.m_blocks ∧
    (s.getBlocks dest).2.m_block_cache = s.m_block_cache ∧
    (s.getBlocks dest).2.m_block_cache_y = s.m_block_cache_y := by
  refine ⟨List.prefix_append _ _, rfl, ?_, rfl, rfl, rfl, rfl⟩
  simp [MapSector.getBlocks]

/-- C17: `deleteBlock` is `detachBlock` with the result dropped: for every state
and block, `deleteBlock` returns normally exactly when `detachBlock` does, it
fails the assertion exactly when `detachBlock` does, and in every case the
sector it leaves is the sector `detachBlock` leaves; on a normal return the
heap is the one `detachBlock` leaves with the detached block destroyed. -/
theorem C17_deleteBlock_is_detachBlock (w : World) (block : Ptr) :
    ((deleteBlock w block).1 = .ok () ↔ ∃ ret, (detachBlock w block).1 = .ok ret) ∧
    ((deleteBlock w block).1 = .assertion_failed ↔
      (detachBlock w block).1 = .assertion_failed) ∧
    ((deleteBlock w block).1 = .undefined_behaviour ↔
      (detachBlock w block).1 = .undefined_behaviour) ∧
    (deleteBlock w block).2.sector = (detachBlock w block).2.sector ∧
    (∀ ret, (detachBlock w block).1 = .ok ret →
      (deleteBlock w block).2.heap = (detachBlock w block).2.heap.destroy ret) := by
  unfold deleteBlock
  cases hd : detachBlock w block with
  | mk r w1 =>
    cases r with
    | ok ret =>
      refine ⟨⟨fun _ => ⟨ret, rfl⟩, fun _ => rfl⟩, ?_, ?_, rfl, ?_⟩
      · simp
      · simp
      · intro ret2 h2
        cases h2
        rfl
    | InvalidPositionException => simp
    | AlreadyExistsException => simp
    | assertion_failed => simp
    | undefined_behaviour => simp

/-- C18: `getBlockNoCreateNoEx` is an alias of `getBlockBuffered`: for every
sector state and every `y` both return the same block (or null) and leave the
same sector state, the cache included. -/
theorem C18_getBlockNoCreateNoEx_alias (s : MapSector) (y : s16) :
    (s.getBlockNoCreateNoEx y).1 = (s.getBlockBuffered y).1 ∧
    (s.getBlockNoCreateNoEx y).2 = (s.getBlockBuffered y).2 :=
  ⟨rfl, rfl⟩

/-- C19: a newly constructed sector has an empty block mapping and a null cache
slot: `getBlockBuffered(y)` returns null for every `y`, `getBlocks` leaves the
destination as it is, `deleteBlocks` with a counter leaves the counter at its
value, and `m_pos` is the `pos` argument. -/
theorem C19_new_sector (h : Heap) (parent : Nat) (pos : v2s16) (gamedef : Nat)
    (y : s16) (dest : MapBlockVect) (c : size_t) (hc : c < size_t_mod) :
    (MapSector.new parent pos gamedef).m_blocks = [] ∧
    (MapSector.new parent pos gamedef).m_block_cache = none ∧
    ((MapSector.new parent pos gamedef).getBlockBuffered y).1 = none ∧
    ((MapSector.new parent pos gamedef).getBlocks dest).1 = dest ∧
    (deleteBlocks ⟨h, MapSector.new parent pos gamedef⟩ (some c)).1 = .ok (some c) ∧
    (MapSector.new parent pos gamedef).m_pos = pos := by
  refine ⟨rfl, rfl, ?_, ?_, ?_, rfl⟩
  · simp [MapSector.new, MapSector.getBlockBuffered, MapSector.lookup, BlockMap.find]
  · simp [MapSector.new, MapSector.getBlocks]
  · simp [MapSector.new, deleteBlocks, deleteBlocksLoop, Nat.mod_eq_of_lt hc]

/-- C19, at the sector constructed at `(3, -2)` on an empty heap, with `y = 7`,
the destination `[some 4]` and the counter at 10. -/
theorem C19_new_sector_witness :
    ((MapSector.new 0 ⟨3, -2⟩ 0).getBlockBuffered 7).1 = none ∧
    ((MapSector.new 0 ⟨3, -2⟩ 0).getBlocks [some 4]).1 = [some 4] ∧
    (deleteBlocks ⟨[], MapSector.new 0 ⟨3, -2⟩ 0⟩ (some 10)).1 = .ok (some 10) :=
  ⟨(C19_new_sector [] 0 ⟨3, -2⟩ 0 7 [some 4] 10 (by decide)).2.2.1,
   (C19_new_sector [] 0 ⟨3, -2⟩ 0 7 [some 4] 10 (by decide)).2.2.2.1,
   (C19_new_sector [] 0 ⟨3, -2⟩ 0 7 [some 4] 10 (by decide)).2.2.2.2.1⟩

/-- C20: on `vector2d` with integer components, `operator<` is the strict
lexicographic order on `(X, Y)`, `X` compared first: it is irreflexive and
transitive; for any `a` and `b` exactly one of `a < b`, `a == b`, `a > b` holds;
`a <= b` holds iff `a < b` or `a == b`; `a >= b` holds iff `a > b` or `a == b`;
`a != b` is the negation of `a == b`; and `a > b` is `b < a`. -/
theorem C20_vector2d_order (a b c : vector2d) :
    (a.lt b = true ↔ a.X < b.X ∨ (a.X = b.X ∧ a.Y < b.Y)) ∧
    ¬ (a.lt a = true) ∧
    (a.lt b = true → b.lt c = true → a.lt c = true) ∧
    ((a.lt b = true ∧ ¬ (a.eq b = true) ∧ ¬ (a.gt b = true)) ∨
      (¬ (a.lt b = true) ∧ a.eq b = true ∧ ¬ (a.gt b = true)) ∨
      (¬ (a.lt b = true) ∧ ¬ (a.eq b = true) ∧ a.gt b = true)) ∧
    (a.le b = true ↔ a.lt b = true ∨ a.eq b = true) ∧
    (a.ge b = true ↔ a.gt b = true ∨ a.eq b = true) ∧
    a.ne b = !(a.eq b) ∧
    (a.gt b = true ↔ b.lt a = true) ∧
    (a.eq b = true ↔ a = b) := by
  obtain ⟨ax, ay⟩ := a
  obtain ⟨bx, by_⟩ := b
  obtain ⟨cx, cy⟩ := c
  simp only [vector2d.lt, vector2d.gt, vector2d.le, vector2d.ge, vector2d.ne, vector2d.eq,
    Bool.or_eq_true, Bool.and_eq_true, decide_eq_true_eq, beq_iff_eq, Bool.not_eq_true',
    Bool.or_eq_false_iff, Bool.and_eq_false_imp, decide_eq_false_iff_not,
    vector2d.mk.injEq, gt_iff_lt]
  refine ⟨trivial, ?_, ?_, ?_, ?_, ?_, trivial, ?_, trivial⟩ <;> omega

/-- C20, transitivity at `(1, 2) < (1, 3) < (2, 0)`. -/
theorem C20_vector2d_order_witness :
    vector2d.lt ⟨1, 2⟩ ⟨2, 0⟩ = true :=
  (C20_vector2d_order ⟨1, 2⟩ ⟨1, 3⟩ ⟨2, 0⟩).2.2.1 (by decide) (by decide)

/-! ## Facts for the cache check and the orientation test -/

theorem orientation_val_eq (a b c : vector2d) :
    (b.Y - a.Y) * (c.X - b.X) - (b.X - a.X) * (c.Y - b.Y) = -(signedArea2 a b c) := by
  unfold signedArea2
  ring

theorem getBlockBuffered_eq_ite (s : MapSector) (y : s16) :
    s.getBlockBuffered y =
      if s.cacheHit y then (s.m_block_cache, s)
      else (s.lookup y, { s with m_block_cache_y := y, m_block_cache := s.lookup y }) :=
  rfl

theorem getBlockBuffered_isSome_of_find {s : MapSector} {y : s16} {stored : Ptr}
    (hocc : BlockMap.find s.m_blocks y = some (some stored)) :
    (s.getBlockBuffered y).1.isSome = true := by
  unfold MapSector.getBlockBuffered
  split
  · rename_i hhit
    simp only [Bool.and_eq_true] at hhit
    exact hhit.1
  · simp [MapSector.lookup, hocc]

/-- C21: with exact integer arithmetic, `a.checkOrientation(b, c)` is always one
of 0, 1, 2; it is 1 exactly when `a.areClockwise(b, c)` is true, 2 exactly when
`a.areCounterClockwise(b, c)` is true, and 0 exactly when both are false; and it
is 0 exactly when the points are colinear, 1 exactly when they are in clockwise
order and 2 exactly when they are in anticlockwise order. -/
theorem C21_checkOrientation (a b c : vector2d) :
    (a.checkOrientation b c = 0 ∨ a.checkOrientation b c = 1 ∨
      a.checkOrientation b c = 2) ∧
    (a.checkOrientation b c = 1 ↔ a.areClockwise b c = true) ∧
    (a.checkOrientation b c = 2 ↔ a.areCounterClockwise b c = true) ∧
    (a.checkOrientation b c = 0 ↔
      (a.areClockwise b c = false ∧ a.areCounterClockwise b c = false)) ∧
    (a.checkOrientation b c = 0 ↔ signedArea2 a b c = 0) ∧
    (a.checkOrientation b c = 1 ↔ signedArea2 a b c < 0) ∧
    (a.checkOrientation b c = 2 ↔ signedArea2 a b c > 0) := by
  simp only [vector2d.checkOrientation, vector2d.areClockwise, vector2d.areCounterClockwise,
    orientation_val_eq, decide_eq_true_eq, decide_eq_false_iff_not]
  generalize signedArea2 a b c = t
  split_ifs <;> omega

/-- C21, at the points of the diagram in the source: `A = (2, 2)`, `B = (3, 0)`,
`C = (1, 0)` are in clockwise order. -/
theorem C21_checkOrientation_witness :
    vector2d.checkOrientation ⟨2, 2⟩ ⟨3, 0⟩ ⟨1, 0⟩ = 1 ∧
    vector2d.areClockwise ⟨2, 2⟩ ⟨3, 0⟩ ⟨1, 0⟩ = true :=
  ⟨by decide, (C21_checkOrientation ⟨2, 2⟩ ⟨3, 0⟩ ⟨1, 0⟩).2.1.mp (by decide)⟩

/-- C22 as stated fails: on a new sector `getBlockBuffered(0)` returns null, and
in the state it leaves the cache check for `y = 0` is false, so the next
`getBlockBuffered(0)` does not take the cache-hit branch. -/
theorem C22_cached_miss_counterexample :
    ((MapSector.new 0 ⟨3, -2⟩ 0).getBlockBuffered 0).1 = none ∧
    MapSector.cacheHit ((MapSector.new 0 ⟨3, -2⟩ 0).getBlockBuffered 0).2 0 = false := by
  decide

/-- C22, amended: whenever `getBlockBuffered(y)` has returned null it leaves
`m_block_cache_y == y` and a null `m_block_cache`; a null cache slot fails the
cache check, so the next `getBlockBuffered(y)` does the keyed lookup in
`m_blocks` again, returns null and leaves the state as it is. -/
theorem C22_miss_is_looked_up_again (s : MapSector) (y : s16)
    (hmiss : (s.getBlockBuffered y).1 = none) :
    (s.getBlockBuffered y).2.m_block_cache_y = y ∧
    (s.getBlockBuffered y).2.m_block_cache = none ∧
    (s.getBlockBuffered y).2.cacheHit y = false ∧
    ((s.getBlockBuffered y).2.getBlockBuffered y).1
      = (s.getBlockBuffered y).2.lookup y ∧
    ((s.getBlockBuffered y).2.getBlockBuffered y).1 = none ∧
    ((s.getBlockBuffered y).2.getBlockBuffered y).2 = (s.getBlockBuffered y).2 := by
  obtain ⟨hlook, hstate⟩ := getBlockBuffered_none hmiss
  rw [hstate]
  have hl2 : MapSector.lookup
      { s with m_block_cache_y := y, m_block_cache := none } y = none := hlook
  refine ⟨rfl, rfl, rfl, ?_, ?_, ?_⟩
  · simp [MapSector.getBlockBuffered]
  · simp [MapSector.getBlockBuffered, hl2]
  · simp [MapSector.getBlockBuffered, hl2]

/-- C22 amended, at the new example sector and `y = 0`. -/
theorem C22_miss_is_looked_up_again_witness :
    MapSector.cacheHit ((MapSector.new 0 ⟨3, -2⟩ 0).getBlockBuffered 0).2 0 = false ∧
    (MapSector.getBlockBuffered ((MapSector.new 0 ⟨3, -2⟩ 0).getBlockBuffered 0).2 0).1
      = none :=
  ⟨(C22_miss_is_looked_up_again (MapSector.new 0 ⟨3, -2⟩ 0) 0 (by decide)).2.2.1,
   (C22_miss_is_looked_up_again (MapSector.new 0 ⟨3, -2⟩ 0) 0 (by decide)).2.2.2.2.1⟩

/-- C23: `getBlockBuffered` is idempotent and never changes the mapping: for
every sector state and every `y`, a second `getBlockBuffered(y)` returns what
the first returned and leaves the state the first left; `m_blocks` is unchanged
by either call; and after the call `m_block_cache_y == y` and `m_block_cache`
is the returned reference. -/
theorem C23_getBlockBuffered_idempotent (s : MapSector) (y : s16) :
    ((s.getBlockBuffered y).2.getBlockBuffered y).1 = (s.getBlockBuffered y).1 ∧
    ((s.getBlockBuffered y).2.getBlockBuffered y).2 = (s.getBlockBuffered y).2 ∧
    (s.getBlockBuffered y).2.m_blocks = s.m_blocks ∧
    ((s.getBlockBuffered y).2.getBlockBuffered y).2.m_blocks = s.m_blocks ∧
    (s.getBlockBuffered y).2.m_block_cache_y = y ∧
    (s.getBlockBuffered y).2.m_block_cache = (s.getBlockBuffered y).1 := by
  have hb := getBlockBuffered_blocks s y
  have hb2 := getBlockBuffered_blocks (s.getBlockBuffered y).2 y
  refine ⟨?_, ?_, hb, by rw [hb2, hb], ?_, ?_⟩
  all_goals
    unfold MapSector.getBlockBuffered
    by_cases hhit : (s.m_block_cache.isSome && decide (y = s.m_block_cache_y)) = true
    · simp only [hhit, if_true]
      try simp only [Bool.and_eq_true, decide_eq_true_eq] at hhit
      try exact hhit.2.symm
    · simp only [hhit]
      cases hl : s.lookup y <;> simp [MapSector.lookup] at hl ⊢ <;> simp [hl]

/-! ## Facts for the failure and frame of `detachBlock` -/

theorem BlockMap.keys_replace (m : BlockMap) (y : s16) (u : unique_ptr) :
    (BlockMap.replace m y u).map Prod.fst = m.map Prod.fst := by
  induction m with
  | nil => rfl
  | cons e rest ih =>
    obtain ⟨k, v⟩ := e
    unfold BlockMap.replace
    split
    · rfl
    · simp [ih]

theorem BlockMap.find_replace_self {m : BlockMap} {y : s16} {v : unique_ptr}
    (hf : BlockMap.find m y = some v) (u : unique_ptr) :
    BlockMap.find (BlockMap.replace m y u) y = some u := by
  induction m with
  | nil => simp [BlockMap.find] at hf
  | cons e rest ih =>
    obtain ⟨k, v2⟩ := e
    unfold BlockMap.find at hf
    unfold BlockMap.replace
    split
    · rename_i hk
      simp [BlockMap.find, hk]
    · rename_i hk
      simp only [hk, if_false] at hf
      simp [BlockMap.find, hk, ih hf]

theorem BlockMap.find_replace_ne (m : BlockMap) {y k : s16} (u : unique_ptr)
    (hne : k ≠ y) :
    BlockMap.find (BlockMap.replace m y u) k = BlockMap.find m k := by
  induction m with
  | nil => rfl
  | cons e rest ih =>
    obtain ⟨k2, v⟩ := e
    unfold BlockMap.replace
    split
    · rename_i hk
      subst hk
      have : ¬ k2 = k := fun h => hne h.symm
      simp [BlockMap.find, this]
    · by_cases hk2 : k2 = k
      · simp [BlockMap.find, hk2]
      · simp [BlockMap.find, hk2, ih]

/-- C24 as stated fails: the example sector stores the block at address 1 at
vertical coordinate 0; `detachBlock` of the block at address 0, which has the
same vertical coordinate, fails the second assertion, and at that point the
entry at key 0 no longer owns the block at address 1: it is null. -/
theorem C24_detachBlock_mismatch_counterexample :
    exampleWorld3.heap.deref 0 = some (MapBlock.new ⟨3, 0, -2⟩ 7) ∧
    exampleWorld3.sector.m_blocks = [(0, some 1)] ∧
    (detachBlock exampleWorld3 0).1 = .assertion_failed ∧
    (detachBlock exampleWorld3 0).2.sector.m_blocks = [(0, none)] ∧
    (detachBlock exampleWorld3 0).2.sector.m_blocks ≠ exampleWorld3.sector.m_blocks := by
  decide

/-- C24, amended: when `detachBlock` fails an assertion, the heap is as before,
the cache slot is null and `m_blocks` has the same keys in the same order.  When
there is no entry at the block's vertical coordinate, `m_blocks` is exactly as
before the call.  When the entry found there is not the block, that entry has
been moved from and is null at the point of failure, and every other entry is
as before. -/
theorem C24_detachBlock_failure_state (w : World) (block : Ptr) (b : MapBlock)
    (hb : w.heap.deref block = some b)
    (hfail : (detachBlock w block).1 = .assertion_failed) :
    (detachBlock w block).2.heap = w.heap ∧
    (detachBlock w block).2.sector.m_block_cache = none ∧
    (detachBlock w block).2.sector.m_block_cache_y = w.sector.m_block_cache_y ∧
    (detachBlock w block).2.sector.m_pos = w.sector.m_pos ∧
    (detachBlock w block).2.sector.m_blocks.map Prod.fst = w.sector.m_blocks.map Prod.fst ∧
    (BlockMap.find w.sector.m_blocks b.getPos.Y = none →
      (detachBlock w block).2.sector.m_blocks = w.sector.m_blocks) ∧
    (∀ ret, BlockMap.find w.sector.m_blocks b.getPos.Y = some ret →
      ret ≠ some block ∧
      BlockMap.find (detachBlock w block).2.sector.m_blocks b.getPos.Y = some none ∧
      (∀ k, k ≠ b.getPos.Y →
        BlockMap.find (detachBlock w block).2.sector.m_blocks k
          = BlockMap.find w.sector.m_blocks k)) := by
  cases hf : BlockMap.find w.sector.m_blocks b.getPos.Y with
  | none =>
    have hd : detachBlock w block =
        (.assertion_failed, { w with sector := { w.sector with m_block_cache := none } }) := by
      simp [detachBlock, hb, hf]
    rw [hd]
    refine ⟨rfl, rfl, rfl, rfl, rfl, fun _ => rfl, ?_⟩
    intro ret hret
    cases hret
  | some ret =>
    by_cases hret : ret = some block
    · subst hret
      rw [detachBlock_ok w block b hb hf] at hfail
      cases hfail
    · have hd : detachBlock w block =
          (.assertion_failed,
            { w with sector := { w.sector with
                m_block_cache := none,
                m_blocks := BlockMap.replace w.sector.m_blocks b.getPos.Y none } }) := by
        simp [detachBlock, hb, hf, hret]
      rw [hd]
      refine ⟨rfl, rfl, rfl, rfl, BlockMap.keys_replace _ _ _, ?_, ?_⟩
      · intro h
        cases h
      · intro ret2 hret2
        cases hret2
        exact ⟨hret, BlockMap.find_replace_self hf none,
          fun k hk => BlockMap.find_replace_ne _ none hk⟩

/-- C24 amended, at the example sector that stores the block at address 1 at
vertical coordinate 0, for the block at address 0. -/
theorem C24_detachBlock_failure_state_witness :
    (detachBlock exampleWorld3 0).2.heap = exampleWorld3.heap ∧
    (detachBlock exampleWorld3 0).2.sector.m_block_cache = none :=
  ⟨(C24_detachBlock_failure_state exampleWorld3 0 (MapBlock.new ⟨3, 0, -2⟩ 7)
      (by decide) (by decide)).1,
   (C24_detachBlock_failure_state exampleWorld3 0 (MapBlock.new ⟨3, 0, -2⟩ 7)
      (by decide) (by decide)).2.1⟩

/-- C25 (detach frame): in every reachable state, for every stored block (at
key `k`, its vertical coordinate) and every `y2` different from `k`,
`getBlockBuffered(y2)` returns the same block after `detachBlock` as before,
and every block other than the detached one is as before, its orphan flag
included. -/
theorem C25_detachBlock_frame (blockpos_over_max_limit : v3s16 → Bool)
    (w : World) (k y2 : s16) (block : Ptr)
    (hr : Reachable blockpos_over_max_limit w)
    (hm : (k, some block) ∈ w.sector.m_blocks) (hy : y2 ≠ k) :
    (detachBlock w block).1 = .ok block ∧
    ((detachBlock w block).2.sector.getBlockBuffered y2).1
      = (w.sector.getBlockBuffered y2).1 ∧
    (∀ q, q ≠ block → (detachBlock w block).2.heap.deref q = w.heap.deref q) := by
  have hi := hr.inv
  obtain ⟨p, b, hu, hb, hpos⟩ := hi.column k (some block) hm
  cases hu
  have hk : b.getPos.Y = k := by rw [hpos]
  have hf : BlockMap.find w.sector.m_blocks b.getPos.Y = some (some block) := by
    rw [hk]
    exact BlockMap.find_of_mem hi.keys hm
  rw [detachBlock_ok w block b hb hf]
  refine ⟨rfl, ?_, ?_⟩
  · rw [getBlockBuffered_eq_lookup hi.cache y2]
    simp only [MapSector.getBlockBuffered, MapSector.lookup, Option.isSome_none,
      Bool.false_and, Bool.false_eq_true, if_false, hk]
    rw [BlockMap.find_erase_ne _ hy]
  · intro q hq
    exact Heap.deref_set_ne _ _ hq

/-- C25, at the example sector that owns the blocks at addresses 0 (at vertical
coordinate 0) and 1 (at vertical coordinate 5): detaching the block at address 1
leaves the lookup at 0 as it was. -/
theorem C25_detachBlock_frame_witness :
    ((detachBlock exampleWorld5 1).2.sector.getBlockBuffered 0).1
      = (exampleWorld5.sector.getBlockBuffered 0).1 :=
  (C25_detachBlock_frame exampleLimit exampleWorld5 5 0 1
    (Reachable.step_createBlankBlock 5
      (Reachable.step_insertBlock 0
        (Reachable.construct
          [some { m_pos := ⟨3, 0, -2⟩, m_gamedef := 7, m_refcount := 2, m_orphan := false }]
          0 ⟨3, -2⟩ 0)
        (fun h => h.elim (fun _ hk => absurd hk (List.not_mem_nil _)))
        (by decide))
      (by decide))
    (by decide) (by decide)).2.1

/-- C26: `insertBlock` checks occupancy before the column assertion: for every
state and every live block whose vertical coordinate is occupied,
`insertBlock` throws `AlreadyExistsException`, whatever the block's horizontal
coordinates are; the assertion `p2d == m_pos` is not reached. -/
theorem C26_insertBlock_occupancy_first (w : World) (block : Ptr) (b : MapBlock)
    (stored : Ptr) (hb : w.heap.deref block = some b)
    (hocc : BlockMap.find w.sector.m_blocks b.getPos.Y = some (some stored)) :
    (insertBlock w block).1 = .AlreadyExistsException ∧
    (insertBlock w block).1 ≠ .assertion_failed ∧
    (vector2d.eq ⟨b.getPos.X, b.getPos.Z⟩ w.sector.m_pos = false →
      (insertBlock w block).1 = .AlreadyExistsException) := by
  rw [insertBlock_exists w block b hb (getBlockBuffered_isSome_of_find hocc)]
  exact ⟨rfl, fun h => (by cases h), fun _ => rfl⟩

/-- C26, at the example sector at `(3, -2)` that stores a block at vertical
coordinate 0, for a block constructed at `(4, 0, -2)`, in another column. -/
theorem C26_insertBlock_occupancy_first_witness :
    vector2d.eq ⟨(MapBlock.new ⟨4, 0, -2⟩ 7).getPos.X, (MapBlock.new ⟨4, 0, -2⟩ 7).getPos.Z⟩
      (createBlankBlock exampleLimit
        ⟨[some (MapBlock.new ⟨4, 0, -2⟩ 7)], MapSector.new 0 ⟨3, -2⟩ 0⟩ 0).2.sector.m_pos
      = false ∧
    (insertBlock (createBlankBlock exampleLimit
      ⟨[some (MapBlock.new ⟨4, 0, -2⟩ 7)], MapSector.new 0 ⟨3, -2⟩ 0⟩ 0).2 0).1
      = .AlreadyExistsException :=
  ⟨by decide,
   (C26_insertBlock_occupancy_first
      (createBlankBlock exampleLimit
        ⟨[some (MapBlock.new ⟨4, 0, -2⟩ 7)], MapSector.new 0 ⟨3, -2⟩ 0⟩ 0).2 0
      (MapBlock.new ⟨4, 0, -2⟩ 7) 1 (by decide) (by decide)).1⟩

/-- C27 as stated fails: the example sector is reachable and holds the block at
address 1 in its cache slot; `insertBlock` of the block at address 0 followed
by `detachBlock` of it both return normally, and afterwards the cache slot is
null and `m_block_cache_y` is 5, so the orphan flag is not the only change. -/
theorem C27_round_trip_counterexample :
    Reachable exampleLimit exampleWorld6 ∧
    (insertBlock exampleWorld6 0).1 = .ok () ∧
    (detachBlock (insertBlock exampleWorld6 0).2 0).1 = .ok 0 ∧
    exampleWorld6.sector.m_block_cache = some 1 ∧
    exampleWorld6.sector.m_block_cache_y = 0 ∧
    (detachBlock (insertBlock exampleWorld6 0).2 0).2.sector.m_block_cache = none ∧
    (detachBlock (insertBlock exampleWorld6 0).2 0).2.sector.m_block_cache_y = 5 ∧
    (detachBlock (insertBlock exampleWorld6 0).2 0).2.sector ≠ exampleWorld6.sector :=
  ⟨Reachable.step_getBlockBuffered 0
      (Reachable.step_createBlankBlock 0
        (Reachable.construct [some (MapBlock.new ⟨3, 5, -2⟩ 7)] 0 ⟨3, -2⟩ 0) (by decide)),
   by decide, by decide, by decide, by decide, by decide, by decide, by decide⟩

/-- C27, amended: in every reachable state, for every live block with the
sector's horizontal position and an unoccupied vertical coordinate,
`insertBlock` followed by `detachBlock` of the same block returns normally and
returns that block; `m_blocks` is then equal to what it was; in the heap only
that block has changed, by having its orphan flag set; the cache slot is left
null with `m_block_cache_y` at the block's vertical coordinate; and every
`getBlockBuffered(y)` returns what it returned in the starting state. -/
theorem C27_insert_detach_round_trip (blockpos_over_max_limit : v3s16 → Bool)
    (w : World) (block : Ptr) (b : MapBlock)
    (hr : Reachable blockpos_over_max_limit w)
    (hb : w.heap.deref block = some b)
    (hcol : b.getPos.X = w.sector.m_pos.X ∧ b.getPos.Z = w.sector.m_pos.Y)
    (hfree : BlockMap.find w.sector.m_blocks b.getPos.Y = none) :
    (insertBlock w block).1 = .ok () ∧
    (detachBlock (insertBlock w block).2 block).1 = .ok block ∧
    (detachBlock (insertBlock w block).2 block).2.sector.m_blocks = w.sector.m_blocks ∧
    (detachBlock (insertBlock w block).2 block).2.heap.deref block = some b.makeOrphan ∧
    (∀ q, q ≠ block →
      (detachBlock (insertBlock w block).2 block).2.heap.deref q = w.heap.deref q) ∧
    (detachBlock (insertBlock w block).2 block).2.sector
      = { w.sector with m_block_cache := none, m_block_cache_y := b.getPos.Y } ∧
    (∀ y, ((detachBlock (insertBlock w block).2 block).2.sector.getBlockBuffered y).1
      = (w.sector.getBlockBuffered y).1) := by
  have hi := hr.inv
  have hp : vector2d.eq ⟨b.getPos.X, b.getPos.Z⟩ w.sector.m_pos = true := by
    simp [vector2d.eq, hcol.1, hcol.2]
  have hins := insertBlock_ok w block b hb (hi.getBlockBuffered_none_of_find hfree) hfree hp
  have hdet : detachBlock (insertBlock w block).2 block =
      (.ok block,
        { heap := w.heap.store block b.makeOrphan,
          sector := { w.sector with
            m_block_cache := none, m_block_cache_y := b.getPos.Y } }) := by
    have hd0 := detachBlock_ok
      { heap := w.heap,
        sector := { w.sector with
          m_block_cache_y := b.getPos.Y, m_block_cache := none,
          m_blocks := (b.getPos.Y, some block) :: w.sector.m_blocks } }
      block b hb (by simp [BlockMap.find])
    rw [hins]
    refine hd0.trans ?_
    simp [BlockMap.erase]
  rw [hdet]
  refine ⟨by rw [hins], rfl, rfl, Heap.deref_set_self _ hb,
    fun q hq => Heap.deref_set_ne _ _ hq, rfl, ?_⟩
  intro y
  rw [getBlockBuffered_eq_lookup hi.cache y]
  simp [MapSector.getBlockBuffered, MapSector.lookup]

/-- C27 amended, at the example sector whose cache slot holds the block at
address 1, for the block at address 0. -/
theorem C27_insert_detach_round_trip_witness :
    (detachBlock (insertBlock exampleWorld6 0).2 0).1 = .ok 0 ∧
    (detachBlock (insertBlock exampleWorld6 0).2 0).2.sector.m_blocks
      = exampleWorld6.sector.m_blocks :=
  ⟨(C27_insert_detach_round_trip exampleLimit exampleWorld6 0 (MapBlock.new ⟨3, 5, -2⟩ 7)
      (Reachable.step_getBlockBuffered 0
        (Reachable.step_createBlankBlock 0
          (Reachable.construct [some (MapBlock.new ⟨3, 5, -2⟩ 7)] 0 ⟨3, -2⟩ 0) (by decide)))
      (by decide) (by decide) (by decide)).2.1,
   (C27_insert_detach_round_trip exampleLimit exampleWorld6 0 (MapBlock.new ⟨3, 5, -2⟩ 7)
      (Reachable.step_getBlockBuffered 0
        (Reachable.step_createBlankBlock 0
          (Reachable.construct [some (MapBlock.new ⟨3, 5, -2⟩ 7)] 0 ⟨3, -2⟩ 0) (by decide)))
      (by decide) (by decide) (by decide)).2.2.1⟩

/-- C28: `deleteBlocks` is idempotent: in every reachable state the first call
returns, and a second call right after it returns too, leaves the state the
first call left (empty mapping, null cache slot) and leaves its counter at its
value; and for every state, `deleteBlocks` with a null counter leaves the same
state as `deleteBlocks` with a counter. -/
theorem C28_deleteBlocks_idempotent (blockpos_over_max_limit : v3s16 → Bool)
    (w : World) (used_count : Option size_t) (c : size_t)
    (hr : Reachable blockpos_over_max_limit w) (hc : c < size_t_mod) :
    (∃ r, (deleteBlocks w used_count).1 = .ok r) ∧
    (deleteBlocks w used_count).2.sector.m_blocks = [] ∧
    (deleteBlocks w used_count).2.sector.m_block_cache = none ∧
    (deleteBlocks (deleteBlocks w used_count).2 (some c)).1 = .ok (some c) ∧
    (deleteBlocks (deleteBlocks w used_count).2 (some c)).2 = (deleteBlocks w used_count).2 ∧
    (deleteBlocks (deleteBlocks w used_count).2 none).2 = (deleteBlocks w used_count).2 ∧
    (deleteBlocks w none).2 = (deleteBlocks w (some c)).2 := by
  have hi := hr.inv
  obtain ⟨h2, v, hloop, -, -⟩ := deleteBlocksLoop_spec w.sector.m_blocks w.heap 0
    hi.entries_live hi.pointers_nodup
  have hres : ∀ uc : Option size_t, deleteBlocks w uc
      = (.ok (uc.map (fun c => (c + v) % size_t_mod)),
          { heap := h2,
            sector := { w.sector with m_block_cache := none, m_blocks := [] } }) := by
    intro uc
    unfold deleteBlocks
    simp only [hloop]
  rw [hres used_count, hres none, hres (some c)]
  refine ⟨⟨_, rfl⟩, rfl, rfl, ?_, ?_, ?_, rfl⟩
  · simp [deleteBlocks, deleteBlocksLoop, Nat.mod_eq_of_lt hc]
  · simp [deleteBlocks, deleteBlocksLoop]
  · simp [deleteBlocks, deleteBlocksLoop]

/-- C28, at the example sector that owns two blocks, with the counter of the
second call at 10. -/
theorem C28_deleteBlocks_idempotent_witness :
    (deleteBlocks (deleteBlocks exampleWorld5 (some 3)).2 (some 10)).1 = .ok (some 10) ∧
    (deleteBlocks (deleteBlocks exampleWorld5 (some 3)).2 (some 10)).2
      = (deleteBlocks exampleWorld5 (some 3)).2 :=
  ⟨(C28_deleteBlocks_idempotent exampleLimit exampleWorld5 (some 3) 10
      (Reachable.step_createBlankBlock 5
        (Reachable.step_insertBlock 0
          (Reachable.construct
            [some { m_pos := ⟨3, 0, -2⟩, m_gamedef := 7, m_refcount := 2, m_orphan := false }]
            0 ⟨3, -2⟩ 0)
          (fun h => h.elim (fun _ hk => absurd hk (List.not_mem_nil _)))
          (by decide))
        (by decide))
      (by decide)).2.2.2.1,
   (C28_deleteBlocks_idempotent exampleLimit exampleWorld5 (some 3) 10
      (Reachable.step_createBlankBlock 5
        (Reachable.step_insertBlock 0
          (Reachable.construct
            [some { m_pos := ⟨3, 0, -2⟩, m_gamedef := 7, m_refcount := 2, m_orphan := false }]
            0 ⟨3, -2⟩ 0)
          (fun h => h.elim (fun _ hk => absurd hk (List.not_mem_nil _)))
          (by decide))
        (by decide))
      (by decide)).2.2.2.2.1⟩

end Luanti
